import Mathlib

/-!
Shallow embedding of the mcpcute aggregation/caching/routing engine
(`src/client-manager.ts` and the `execute_tool` handler of `src/index.ts`).

Modelling conventions:
* JS `Record<string, T>` objects and `Map<string, T>` maps are association
  lists (`StrMap`) with overwrite-on-set semantics; `Object.entries` /
  `Object.keys` iteration order is the list order.
* The file system holding one cache file per backend is a `StrMap` keyed by
  the cache file path; `path.join(dir, f)` is modelled as `dir ++ "/" ++ f`.
  Disk writes are assumed to succeed (the code treats write failures as
  non-fatal and logged only).
* The external world (backend processes) is a `World`: `listToolsResult`
  gives the catalog a backend answers with (`none` = the connect/list-tools
  round trip throws), `closeOk` tells whether closing a session throws
  (the result is swallowed by the code), `now` is `Date.now()`.
* `client.callTool` is modelled by returning a `CallRecord` describing
  exactly which backend was invoked, under which native tool name, and with
  which arguments object; the arguments object is an opaque type `α`.
* `JSON.stringify` (as used by `getServerConfigSignature`) is modelled
  character-faithfully, including its string escaping rules.  The
  `localeCompare` comparator used to sort environment keys is modelled as
  code-point lexicographic comparison, and JS's stable `Array.sort` as
  insertion sort (all stable sorts agree for a total comparator).
* Async functions are single-threaded state transformers; the per-backend
  fan-out of `Promise.all` is modelled as a left-to-right fold, which the
  code's own concurrency model (disjoint per-backend slots, single logical
  thread) makes equivalent.
* Each fetch result additionally carries a `trace`: the list of backend
  names whose live list-tools operation was invoked during the call.  This
  instruments the code's observable interaction with the world and is not
  part of the state.
-/

deriving instance DecidableEq for Except

namespace Mcpcute

/-- String maps with JS `Map`/`Record` lookup semantics. -/
@[reducible] def StrMap (α : Type) : Type := List (String × α)

namespace StrMap

/-- The empty map. -/
def empty {α : Type} : StrMap α := []

/-- Lookup, first (most recent) binding wins. -/
def get {α : Type} : StrMap α → String → Option α
  | [], _ => none
  | (k, v) :: rest, q => if k = q then some v else get rest q

/-- Remove every binding of a key (JS `Map.delete`). -/
def del {α : Type} (m : StrMap α) (k : String) : StrMap α :=
  m.filter (fun e => decide (e.1 ≠ k))

/-- Overwrite-or-insert a binding (JS `Map.set`). -/
def set {α : Type} (m : StrMap α) (k : String) (v : α) : StrMap α :=
  (k, v) :: m.del k

/-- Keys of the map. -/
def keys {α : Type} (m : StrMap α) : List String := m.map (·.1)

end StrMap

/-- `MCPServerConfig` of `src/types.ts`: a backend's launch spec.  The
`env` record is an association list with (by the JS `Record` invariant)
pairwise-distinct keys. -/
structure MCPServerConfig where
  command : String
  args : Option (List String)
  env : Option (List (String × String))
  description : Option String
deriving DecidableEq

/-- A tool as reported by a backend's `listTools` (name, description?,
inputSchema?).  The schema blob is opaque. -/
structure RawTool where
  name : String
  description : Option String
  inputSchema : Option String
deriving DecidableEq

/-- `AggregatedTool` of `src/types.ts`: a catalog entry tagged with its
owning backend. -/
structure AggregatedTool where
  name : String
  description : Option String
  inputSchema : Option String
  source : String
deriving DecidableEq

/-- `ToolDetails` of `src/types.ts`. -/
structure ToolDetails where
  name : String
  description : Option String
  inputSchema : Option String
  source : String
deriving DecidableEq

/-- A live session in the connection pool (`ConnectedClient`): only the
signature it opened under is observable in the model. -/
structure Session where
  configSignature : String
deriving DecidableEq

/-- `ServerToolsCache`: one backend's in-memory catalog cache. -/
structure ServerToolsCache where
  tools : List AggregatedTool
  fetched : Bool
  configSignature : String
deriving DecidableEq

/-- `PersistedServerCacheFile`: the durable per-backend cache record. -/
structure PersistedServerCacheFile where
  configSignature : String
  tools : List AggregatedTool
  fetchedAt : Nat
deriving DecidableEq

/-- The external world a run interacts with. -/
structure World where
  listToolsResult : String → Option (List RawTool)
  closeOk : String → Bool
  now : Nat

/-- The mutable fields of `MCPClientManager`, plus the (immutable) config
and resolved cache directory, plus the modelled disk. -/
structure ManagerState where
  config : StrMap MCPServerConfig
  cacheDir : String
  clients : StrMap Session
  serverToolsCache : StrMap ServerToolsCache
  toolToServer : StrMap String
  toolsAggregated : Bool
  disk : StrMap PersistedServerCacheFile
deriving DecidableEq

/-! ### Config signature (`getServerConfigSignature`) -/

/-- Hex digit (lowercase), as produced by `JSON.stringify` unicode escapes. -/
def hexDigitChar (n : Nat) : Char :=
  if n < 10 then Char.ofNat (48 + n) else Char.ofNat (87 + n)

/-- JSON escaping of one character, per `JSON.stringify`. -/
def escChar (c : Char) : List Char :=
  if c = '"' then ['\\', '"']
  else if c = '\\' then ['\\', '\\']
  else if c = '\x08' then ['\\', 'b']
  else if c = '\x0c' then ['\\', 'f']
  else if c = '\n' then ['\\', 'n']
  else if c = '\r' then ['\\', 'r']
  else if c = '\t' then ['\\', 't']
  else if c.toNat < 32 then
    ['\\', 'u', '0', '0', hexDigitChar (c.toNat / 16), hexDigitChar (c.toNat % 16)]
  else [c]

/-- Body of a JSON string literal. -/
def encStrData (s : List Char) : List Char := (s.map escChar).flatten

/-- A JSON string literal. -/
def encStr (s : String) : List Char := '"' :: (encStrData s.data ++ ['"'])

/-- Comma-separated JSON string literals. -/
def encItems : List String → List Char
  | [] => []
  | [x] => encStr x
  | x :: y :: rest => encStr x ++ ',' :: encItems (y :: rest)

/-- A JSON array of strings. -/
def encStrList (xs : List String) : List Char := '[' :: (encItems xs ++ [']'])

/-- Comma-separated `"key":"value"` members. -/
def encPairItems : List (String × String) → List Char
  | [] => []
  | [(k, v)] => encStr k ++ ':' :: encStr v
  | (k, v) :: p :: rest => encStr k ++ ':' :: encStr v ++ ',' :: encPairItems (p :: rest)

/-- A JSON object with string values. -/
def encEnvObj (es : List (String × String)) : List Char :=
  '\x7b' :: (encPairItems es ++ ['\x7d'])

/-- Code-point "less or equal" on strings: the model of the
`a.localeCompare(b)` comparator used to sort environment keys. -/
def cpLeb : List Char → List Char → Bool
  | [], _ => true
  | _ :: _, [] => false
  | a :: as, b :: bs =>
    if a.toNat < b.toNat then true
    else if b.toNat < a.toNat then false
    else cpLeb as bs

/-- Ordering of environment entries by key. -/
def envEntryLe (x y : String × String) : Prop := cpLeb x.1.data y.1.data = true

instance : DecidableRel envEntryLe := fun x y => by
  unfold envEntryLe; infer_instance

/-- `Object.entries(env).sort(([a],[b]) => a.localeCompare(b))`, with the
stable JS sort modelled as insertion sort. -/
def sortEnv (es : List (String × String)) : List (String × String) :=
  es.insertionSort envEntryLe

/-- Strictly-increasing-keys ordering used to show sortedness is canonical. -/
def envEntryLtKeys (x y : String × String) : Prop := envEntryLe x y ∧ x.1 ≠ y.1

/-- `getServerConfigSignature` (`client-manager.ts:154-170`):
`JSON.stringify({command, args: args ?? [], env: sortedEnv})`, where an
`undefined` env key is omitted by `JSON.stringify`. -/
def getServerConfigSignature (serverConfig : Option MCPServerConfig) : String :=
  match serverConfig with
  | none => "missing"
  | some c =>
    ⟨'\x7b' :: ("\"command\":".data ++ encStr c.command
      ++ ",\"args\":".data ++ encStrList (c.args.getD [])
      ++ (match c.env with
          | none => []
          | some e => ",\"env\":".data ++ encEnvObj (sortEnv e))
      ++ ['\x7d'])⟩

/-! ### A decoder for the signature encoding (verification support)

`decBody` undoes `encStrData`: it is only ever evaluated on encoder
output, so it may be liberal elsewhere.  It witnesses that the JSON
encoding above is prefix-unambiguous, which the signature-injectivity
proofs rest on. -/

/-- Value of a lowercase hex digit. -/
def hexVal (c : Char) : Nat :=
  if 97 ≤ c.toNat then c.toNat - 87 else c.toNat - 48

/-- Decode the body of a JSON string literal up to its closing quote,
returning the decoded characters and the remainder after the quote. -/
def decBody : List Char → Option (List Char × List Char)
  | [] => none
  | c :: rest =>
    if c = '"' then some ([], rest)
    else if c = '\\' then
      match rest with
      | [] => none
      | e :: rest2 =>
        if e = '"' then (decBody rest2).map (fun p => ('"' :: p.1, p.2))
        else if e = '\\' then (decBody rest2).map (fun p => ('\\' :: p.1, p.2))
        else if e = 'b' then (decBody rest2).map (fun p => ('\x08' :: p.1, p.2))
        else if e = 'f' then (decBody rest2).map (fun p => ('\x0c' :: p.1, p.2))
        else if e = 'n' then (decBody rest2).map (fun p => ('\n' :: p.1, p.2))
        else if e = 'r' then (decBody rest2).map (fun p => ('\r' :: p.1, p.2))
        else if e = 't' then (decBody rest2).map (fun p => ('\t' :: p.1, p.2))
        else if e = 'u' then
          match rest2 with
          | _ :: _ :: h1 :: h2 :: rest3 =>
            (decBody rest3).map
              (fun p => (Char.ofNat (hexVal h1 * 16 + hexVal h2) :: p.1, p.2))
          | _ => none
        else none
    else (decBody rest).map (fun p => (c :: p.1, p.2))

/-- Pointwise equality of optional environment overlays up to entry
order: the "environment content" a signature is supposed to fingerprint. -/
def envContentEq : Option (List (String × String)) → Option (List (String × String)) → Prop
  | none, none => True
  | some e1, some e2 => e1.Perm e2
  | _, _ => False

/-! ### Disk cache store naming -/

/-- Characters kept by the sanitizing regex `[^a-zA-Z0-9-_]`. -/
def keepChar (c : Char) : Bool :=
  (97 ≤ c.toNat && c.toNat ≤ 122) || (65 ≤ c.toNat && c.toNat ≤ 90) ||
  (48 ≤ c.toNat && c.toNat ≤ 57) || c = '-' || c = '_'

/-- `sanitizeServerName`: replace every character outside
`[a-zA-Z0-9-_]` by an underscore. -/
def sanitizeServerName (name : String) : String :=
  ⟨name.data.map (fun c => if keepChar c then c else '_')⟩

/-- `getCacheFilePath`: `join(cacheDir, sanitized + ".json")`. -/
def getCacheFilePath (cacheDir : String) (serverName : String) : String :=
  cacheDir ++ "/" ++ sanitizeServerName serverName ++ ".json"

/-! ### JS string helpers used by the router -/

/-- JS `String.prototype.slice(n)` (by code unit, here code point). -/
def jsSlice (s : String) (n : Nat) : String := ⟨s.data.drop n⟩

/-- JS `String.prototype.startsWith(p)`. -/
def jsStartsWith (s p : String) : Bool := p.data.isPrefixOf s.data

/-- JS `toolName.split("__")`, specialised to the `"__"` separator used by
the collision renaming scheme.  Scans left to right, splitting at each
non-overlapping occurrence. -/
def jsSplitDunderAux : List Char → List Char → List (List Char)
  | acc, '_' :: '_' :: rest => acc.reverse :: jsSplitDunderAux [] rest
  | acc, c :: rest => jsSplitDunderAux (c :: acc) rest
  | acc, [] => [acc.reverse]

/-- `toolName.split("__")` as a list of strings. -/
def jsSplitDunder (s : String) : List String :=
  (jsSplitDunderAux [] s.data).map (fun l => ⟨l⟩)

/-- `parts.join("__")`. -/
def joinDunder : List String → String
  | [] => ""
  | [x] => x
  | x :: y :: rest => x ++ "__" ++ joinDunder (y :: rest)

/-- JS `String.prototype.toLowerCase()` (ASCII; tool and backend names in
this model are ASCII). -/
def jsToLower (s : String) : String := ⟨s.data.map Char.toLower⟩

/-- JS `String.prototype.includes(needle)`. -/
def containsSub (needle : List Char) : List Char → Bool
  | [] => needle.isEmpty
  | c :: rest => needle.isPrefixOf (c :: rest) || containsSub needle rest

/-- Case-insensitive name/description match used by `searchTools`. -/
def toolMatches (lowerQuery : String) (t : AggregatedTool) : Bool :=
  containsSub lowerQuery.data (jsToLower t.name).data ||
  (match t.description with
   | some d => containsSub lowerQuery.data (jsToLower d).data
   | none => false)

/-- JS truthiness of an optional string parameter (`undefined` and `""`
are both falsy). -/
def strFalsy : Option String → Bool
  | none => true
  | some s => s = ""

/-! ### Connection pool -/

/-- `markAggregationStale` (`client-manager.ts:172-175`). -/
def markAggregationStale (s : ManagerState) : ManagerState :=
  { s with toolsAggregated := false, toolToServer := StrMap.empty }

/-- `disconnectClient` (`client-manager.ts:177-195`): close the session
(best effort — a throwing `close` is caught and only logged) and, in the
`finally` block, always drop the pool entry. -/
def disconnectClient (w : World) (s : ManagerState) (name : String) : ManagerState :=
  match s.clients.get name with
  | none => s
  | some _ =>
    -- the close outcome is observed and discarded (try/catch)
    let _closeOutcome := w.closeOk name
    { s with clients := s.clients.del name }

/-- `connectToServer` (`client-manager.ts:197-233`): reuse a live session
with a matching signature; tear down and redial on mismatch; dial fresh
otherwise.  (Launch/handshake is modelled as succeeding; its failure is
only ever observed through the catch in `fetchToolsFromServer`, which the
`World.listToolsResult = none` case covers.) -/
def connectToServer (w : World) (s : ManagerState) (name : String)
    (serverConfig : MCPServerConfig) : ManagerState :=
  let configSignature := getServerConfigSignature (some serverConfig)
  match s.clients.get name with
  | some existing =>
    if existing.configSignature = configSignature then s
    else
      let s1 := disconnectClient w s name
      { s1 with clients := s1.clients.set name ⟨configSignature⟩ }
  | none => { s with clients := s.clients.set name ⟨configSignature⟩ }

/-! ### Disk cache store -/

/-- `persistServerCache` (`client-manager.ts:113-137`): write the record
(only for a fetched cache); modelled as a successful overwrite. -/
def persistServerCache (w : World) (s : ManagerState) (serverName : String)
    (cache : ServerToolsCache) : ManagerState :=
  if cache.fetched then
    { s with disk := (s.disk.set (getCacheFilePath s.cacheDir serverName)
        ⟨cache.configSignature, cache.tools, w.now⟩) }
  else s

/-- `removeCacheFile` (`client-manager.ts:139-152`): delete, tolerant of
an already-absent file. -/
def removeCacheFile (s : ManagerState) (serverName : String) : ManagerState :=
  { s with disk := s.disk.del (getCacheFilePath s.cacheDir serverName) }

/-- `loadCacheFromDisk` (`client-manager.ts:95-111`). -/
def loadCacheFromDisk (s : ManagerState) (serverName : String) :
    Option PersistedServerCacheFile :=
  s.disk.get (getCacheFilePath s.cacheDir serverName)

/-- One iteration of the constructor's seeding loop
(`client-manager.ts:40-59`): adopt a persisted record only when its
signature matches the current one, deleting it otherwise. -/
def mkManagerStep (st : ManagerState) (e : String × MCPServerConfig) : ManagerState :=
  let serverName := e.1
  let configSignature := getServerConfigSignature (some e.2)
  match loadCacheFromDisk st serverName with
  | some persisted =>
    if persisted.configSignature = configSignature then
      { st with serverToolsCache :=
          st.serverToolsCache.set serverName ⟨persisted.tools, true, configSignature⟩ }
    else
      let st1 := removeCacheFile st serverName
      { st1 with serverToolsCache :=
          st1.serverToolsCache.set serverName ⟨[], false, configSignature⟩ }
  | none =>
    { st with serverToolsCache :=
        st.serverToolsCache.set serverName ⟨[], false, configSignature⟩ }

/-- The `MCPClientManager` constructor (`client-manager.ts:35-60`): seed a
cache entry for every configured server. -/
def mkManager (cacheDir : String) (config : StrMap MCPServerConfig)
    (disk : StrMap PersistedServerCacheFile) : ManagerState :=
  config.foldl mkManagerStep
    ⟨config, cacheDir, StrMap.empty, StrMap.empty, StrMap.empty, false, disk⟩

/-! ### Tool catalog cache -/

/-- Tag a raw tool with its owning backend (`client-manager.ts:272-277`). -/
def toTool (serverName : String) (t : RawTool) : AggregatedTool :=
  ⟨t.name, t.description, t.inputSchema, serverName⟩

/-- Result of a state-transforming catalog operation: the new state, the
returned entries, and the backends whose live list-tools was invoked. -/
structure FetchOut where
  state : ManagerState
  tools : List AggregatedTool
  trace : List String
deriving DecidableEq

/-- `fetchToolsFromServer` (`client-manager.ts:235-294`). -/
def fetchToolsFromServer (w : World) (s : ManagerState) (serverName : String) :
    FetchOut :=
  match s.config.get serverName with
  | none => ⟨s, [], []⟩
  | some serverConfig =>
    let configSignature := getServerConfigSignature (some serverConfig)
    -- cache (re)initialisation: lines 242-262
    let step :=
      match s.serverToolsCache.get serverName with
      | none =>
        match loadCacheFromDisk s serverName with
        | some persisted =>
          if persisted.configSignature = configSignature then
            let c : ServerToolsCache := ⟨persisted.tools, true, configSignature⟩
            ({ s with serverToolsCache := s.serverToolsCache.set serverName c }, c)
          else
            let s1 := markAggregationStale s
            let s2 := removeCacheFile s1 serverName
            let c : ServerToolsCache := ⟨[], false, configSignature⟩
            ({ s2 with serverToolsCache := s2.serverToolsCache.set serverName c }, c)
        | none =>
          let s1 := markAggregationStale s
          let c : ServerToolsCache := ⟨[], false, configSignature⟩
          ({ s1 with serverToolsCache := s1.serverToolsCache.set serverName c }, c)
      | some cache =>
        if cache.configSignature ≠ configSignature then
          let s1 := disconnectClient w s serverName
          let s2 := markAggregationStale s1
          let s3 := removeCacheFile s2 serverName
          let c : ServerToolsCache := ⟨[], false, configSignature⟩
          ({ s3 with serverToolsCache := s3.serverToolsCache.set serverName c }, c)
        else (s, cache)
    let s0 := step.1
    let cache := step.2
    if cache.fetched then ⟨s0, cache.tools, []⟩
    else
      -- live fetch: lines 268-293
      match w.listToolsResult serverName with
      | some rawTools =>
        let s1 := connectToServer w s0 serverName serverConfig
        let tools := rawTools.map (toTool serverName)
        let updated : ServerToolsCache := ⟨tools, true, configSignature⟩
        let s2 := { s1 with serverToolsCache := s1.serverToolsCache.set serverName updated }
        let s3 := persistServerCache w s2 serverName updated
        ⟨s3, tools, [serverName]⟩
      | none =>
        let failed : ServerToolsCache := ⟨[], true, configSignature⟩
        let s2 := { s0 with serverToolsCache := s0.serverToolsCache.set serverName failed }
        let s3 := persistServerCache w s2 serverName failed
        ⟨s3, [], [serverName]⟩

/-! ### Aggregator / router -/

/-- Number of snapshot entries sharing a (native) name. -/
def nameCount (allTools : List AggregatedTool) (n : String) : Nat :=
  (allTools.filter (fun t => t.name = n)).length

/-- The in-place renaming `aggregateTools` applies to one entry of the
snapshot it is grouping: entries of a multi-entry name group become
`source__name` (`client-manager.ts:311-318`). -/
def renameTool (allTools : List AggregatedTool) (t : AggregatedTool) : AggregatedTool :=
  if 2 ≤ nameCount allTools t.name then
    { t with name := t.source ++ "__" ++ t.name }
  else t

/-- The distinct names of the snapshot in first-occurrence order — the
iteration order of the JS `Map` built by the grouping loop. -/
def firstOcc : List String → List String
  | [] => []
  | n :: ns => n :: (firstOcc ns).filter (fun m => decide (m ≠ n))

/-- The group of snapshot entries carrying a given (native) name. -/
def groupFor (allTools : List AggregatedTool) (n : String) : List AggregatedTool :=
  allTools.filter (fun t => t.name = n)

/-- Indexing of one name group (`client-manager.ts:308-319`): a singleton
group is indexed as-is, members of a larger group under their prefixed
name. -/
def indexGroupStep (allTools : List AggregatedTool) (idx : StrMap String)
    (n : String) : StrMap String :=
  match groupFor allTools n with
  | [t] => idx.set n t.source
  | g => g.foldl (fun idx2 t => idx2.set (t.source ++ "__" ++ t.name) t.source) idx

/-- The `toolToServer` index built by `aggregateTools`
(`client-manager.ts:307-319`), iterating the name groups in
first-occurrence order. -/
def buildIndex (allTools : List AggregatedTool) : StrMap String :=
  (firstOcc (allTools.map (·.name))).foldl (indexGroupStep allTools) StrMap.empty

/-- `aggregateTools` (`client-manager.ts:296-322`) as a state transformer.
The JS code mutates the snapshot's tool objects in place; because the
per-backend caches hold exactly those objects, the renaming is visible in
every configured backend's cache, which this models by mapping
`renameTool` over them. -/
def aggregateTools (s : ManagerState) (allTools : List AggregatedTool) : ManagerState :=
  let configured := s.config.keys
  { s with
    toolToServer := buildIndex allTools,
    toolsAggregated := true,
    serverToolsCache := s.serverToolsCache.map (fun e => (e.1,
      if configured.contains e.1 then
        { e.2 with tools := e.2.tools.map (renameTool allTools) }
      else e.2)) }

/-- The entry list a backend's in-memory cache currently holds (empty when
no cache entry exists). -/
def cacheToolsAt (s : ManagerState) (m : String) : List AggregatedTool :=
  ((s.serverToolsCache.get m).map ServerToolsCache.tools).getD []

/-- The sequential model of the `Promise.all` fan-out of
`listAllTools` (`client-manager.ts:327-330`). -/
def fetchAllServers (w : World) :
    ManagerState → List String → ManagerState × List (List AggregatedTool) × List String
  | s, [] => (s, [], [])
  | s, n :: ns =>
    let r := fetchToolsFromServer w s n
    let rest := fetchAllServers w r.state ns
    (rest.1, r.tools :: rest.2.1, r.trace ++ rest.2.2)

/-- `listAllTools` (`client-manager.ts:324-339`). -/
def listAllTools (w : World) (s : ManagerState) : FetchOut :=
  let r := fetchAllServers w s (s.config.keys)
  let allTools := r.2.1.flatten
  if r.1.toolsAggregated then ⟨r.1, allTools, r.2.2⟩
  else ⟨aggregateTools r.1 allTools, allTools.map (renameTool allTools), r.2.2⟩

/-- `listToolsForMCP` (`client-manager.ts:528-533`). -/
def listToolsForMCP (w : World) (s : ManagerState) (mcpName : String) : FetchOut :=
  match s.config.get mcpName with
  | none => ⟨s, [], []⟩
  | some _ => fetchToolsFromServer w s mcpName

/-- The per-server fetch-and-filter loop of `searchTools`
(`client-manager.ts:375-383`). -/
def searchLoop (w : World) (lowerQuery : String) :
    ManagerState → List String → ManagerState × List AggregatedTool × List String
  | s, [] => (s, [], [])
  | s, n :: ns =>
    let r := fetchToolsFromServer w s n
    let rest := searchLoop w lowerQuery r.state ns
    (rest.1, r.tools.filter (toolMatches lowerQuery) ++ rest.2.1, r.trace ++ rest.2.2)

/-- `searchTools` (`client-manager.ts:341-391`).  In the query-only
branch the returned matches alias the cache objects, which the trailing
`listAllTools()` aggregation renames in place; the model applies that
renaming (over the snapshot the aggregation sees) to the collected
matches. -/
def searchTools (w : World) (s : ManagerState) (query mcpName : Option String) :
    FetchOut :=
  if !strFalsy mcpName then
    let r := listToolsForMCP w s (mcpName.getD "")
    if strFalsy query then r
    else
      let lowerQuery := jsToLower (query.getD "")
      ⟨r.state, r.tools.filter (toolMatches lowerQuery), r.trace⟩
  else if strFalsy query then listAllTools w s
  else
    let lowerQuery := jsToLower (query.getD "")
    let serverNames := s.config.keys
    let matchingServers := serverNames.filter
      (fun n => containsSub lowerQuery.data (jsToLower n).data)
    let otherServers := serverNames.filter
      (fun n => !containsSub lowerQuery.data (jsToLower n).data)
    let r := searchLoop w lowerQuery s (matchingServers ++ otherServers)
    if r.1.toolsAggregated then ⟨r.1, r.2.1, r.2.2⟩
    else
      let la := listAllTools w r.1
      let allTools := (fetchAllServers w r.1 r.1.config.keys).2.1.flatten
      ⟨la.state, r.2.1.map (renameTool allTools), r.2.2 ++ la.trace⟩

/-- `getToolDetails` (`client-manager.ts:393-433`).  The JS falsiness
tests `if (!serverName)` and `serverName && config[serverName]` treat an
empty-string server name like an absent one. -/
def getToolDetails (w : World) (s : ManagerState) (toolName : String) :
    ManagerState × Option ToolDetails :=
  let fallback : ManagerState → ManagerState × Option ToolDetails := fun st =>
    let la := listAllTools w st
    match la.tools.find? (fun t => t.name = toolName) with
    | some t => (la.state, some ⟨t.name, t.description, t.inputSchema, t.source⟩)
    | none => (la.state, none)
  let indexed := s.toolToServer.get toolName
  let serverName :=
    if !strFalsy indexed then indexed
    else
      let parts := jsSplitDunder toolName
      if 2 ≤ parts.length then some (parts.headD "") else indexed
  if !strFalsy serverName && (s.config.get (serverName.getD "")).isSome then
    let r := fetchToolsFromServer w s (serverName.getD "")
    match r.tools.find? (fun t => t.name = toolName) with
    | some t => (r.state, some ⟨t.name, t.description, t.inputSchema, t.source⟩)
    | none => fallback r.state
  else fallback s

/-- The record of one `client.callTool` invocation: which backend, which
native tool name, which arguments object (passed through verbatim). -/
structure CallRecord (α : Type) where
  server : String
  name : String
  arguments : α
deriving DecidableEq

/-- The shared tail of `executeTool` (`client-manager.ts:474-490`): strip
the `server__` prefix when the public name carries it, validate the
server, connect and invoke. -/
def finishExecute {α : Type} (w : World) (s : ManagerState)
    (toolName originalToolName serverName : String) (args : α) :
    ManagerState × Except String (CallRecord α) :=
  let nativeName :=
    if jsStartsWith toolName (serverName ++ "__") then
      jsSlice toolName (serverName.data.length + 2)
    else originalToolName
  match s.config.get serverName with
  | none => (s, .error ("Server not found: " ++ serverName))
  | some serverConfig =>
    let s1 := connectToServer w s serverName serverConfig
    (s1, .ok ⟨serverName, nativeName, args⟩)

/-- `executeTool` (`client-manager.ts:435-490`).  A thrown `Error` is an
`Except.error` carrying its message.  Every `if (!serverName)` of the
source is a JS string-falsiness test, treating an absent and an
empty-string server name alike; `originalToolName` is reassigned by the
prefix guess and survives into the list-all retry. -/
def executeTool {α : Type} (w : World) (s : ManagerState) (toolName : String)
    (args : α) (specifiedServerName : Option String) :
    ManagerState × Except String (CallRecord α) :=
  if !strFalsy specifiedServerName then
    let sn := specifiedServerName.getD ""
    if (s.config.get sn).isNone then
      (s, .error ("Server not found: " ++ sn))
    else finishExecute w s toolName toolName sn args
  else
    let indexed := s.toolToServer.get toolName
    if !strFalsy indexed then
      finishExecute w s toolName toolName (indexed.getD "") args
    else
      let parts := jsSplitDunder toolName
      let guessed := if 2 ≤ parts.length then some (parts.headD "") else indexed
      let originalToolName :=
        if 2 ≤ parts.length then joinDunder parts.tail else toolName
      if !strFalsy guessed then
        finishExecute w s toolName originalToolName (guessed.getD "") args
      else
        let la := listAllTools w s
        let retried := la.state.toolToServer.get toolName
        if !strFalsy retried then
          finishExecute w la.state toolName originalToolName (retried.getD "") args
        else (la.state, .error ("Tool not found: " ++ toolName))

/-- `MCPInfo` as produced by `listMCPs` (`client-manager.ts:494-503`). -/
structure MCPInfo where
  name : String
  tool_count : Nat
deriving DecidableEq

/-- `listMCPs` (`client-manager.ts:494-503`). -/
def listMCPs (s : ManagerState) : List MCPInfo :=
  s.config.map (fun e =>
    match s.serverToolsCache.get e.1 with
    | some cache => ⟨e.1, if cache.fetched then cache.tools.length else 0⟩
    | none => ⟨e.1, 0⟩)

/-- `searchMCPs` (`client-manager.ts:505-512`). -/
def searchMCPs (s : ManagerState) (query : Option String) : List MCPInfo :=
  let allMCPs := listMCPs s
  if strFalsy query then allMCPs
  else
    let lowerQuery := jsToLower (query.getD "")
    allMCPs.filter (fun m => containsSub lowerQuery.data (jsToLower m.name).data)

/-- `MCPDetails` as produced by `getMCPDetails`. -/
structure MCPDetails where
  name : String
  tool_count : Nat
  tools : List (String × Option String)
deriving DecidableEq

/-- `getMCPDetails` (`client-manager.ts:514-526`). -/
def getMCPDetails (w : World) (s : ManagerState) (mcpName : String) :
    ManagerState × Option MCPDetails :=
  match s.config.get mcpName with
  | none => (s, none)
  | some _ =>
    let r := fetchToolsFromServer w s mcpName
    (r.state, some ⟨mcpName, r.tools.length, r.tools.map (fun t => (t.name, t.description))⟩)

/-- `disconnect` (`client-manager.ts:535-540`): release every pooled
session; individual close failures never stop the others. -/
def disconnect (w : World) (s : ManagerState) : ManagerState :=
  (s.clients.keys).foldl (fun st n => disconnectClient w st n) s

/-- Outcome of the `execute_tool` meta-tool (`index.ts:202-236`): either a
successful invocation or a structured error result. -/
inductive HandlerResult (α : Type) where
  | success (result : CallRecord α)
  | errorResult (text : String)
deriving DecidableEq

/-- The `execute_tool` handler of `index.ts:213-235`: a thrown error is
caught and turned into an `isError` content block whose text prefixes the
message with `Error executing tool: `. -/
def executeToolHandler {α : Type} (w : World) (s : ManagerState)
    (toolName : String) (args : α) : ManagerState × HandlerResult α :=
  match executeTool w s toolName args none with
  | (s1, .ok r) => (s1, .success r)
  | (s1, .error e) => (s1, .errorResult ("Error executing tool: " ++ e))

/-- The cache-hit condition under which a fetch is served from memory. -/
def hitAt (s : ManagerState) (m : String) : Prop :=
  ∃ cfg c, s.config.get m = some cfg ∧
    s.serverToolsCache.get m = some c ∧ c.fetched = true ∧
    c.configSignature = getServerConfigSignature (some cfg)

/-- The catalog every backend would answer with, per configured server. -/
def freshListFor (w : World) (config : StrMap MCPServerConfig) :
    List (List AggregatedTool) :=
  config.keys.map (fun n => ((w.listToolsResult n).getD []).map (toTool n))

/-- The full fetched snapshot of a fresh run: every configured backend's
answer, tagged and concatenated in configuration order. -/
def freshSnapshot (w : World) (config : StrMap MCPServerConfig) :
    List AggregatedTool :=
  (freshListFor w config).flatten

/-- A configured backend whose in-memory cache is either still the
constructor seed or already holds the backend's current catalog under the
current signature. -/
def seededOrFetched (w : World) (s : ManagerState) (m : String) : Prop :=
  ∃ cfg, s.config.get m = some cfg ∧
    (s.serverToolsCache.get m =
        some ⟨[], false, getServerConfigSignature (some cfg)⟩ ∨
      s.serverToolsCache.get m =
        some ⟨((w.listToolsResult m).getD []).map (toTool m), true,
          getServerConfigSignature (some cfg)⟩)

/-! ### Fixtures for counterexamples and witnesses -/
/-- Two-backend world whose backend `b` fails, for the C5 witness. -/
def failDemoWorld : World :=
  ⟨fun n => if n = "c" then some [⟨"y", none, none⟩] else none, fun _ => true, 9⟩

/-- Two-backend configuration for the C5 witness. -/
def failDemoConfig : StrMap MCPServerConfig :=
  [("b", ⟨"cmdB", none, none, none⟩), ("c", ⟨"cmdC", none, none, none⟩)]

/-- Single-backend configuration for the C6 witness. -/
def driftDemoConfig : StrMap MCPServerConfig := [("b", ⟨"cmdB", none, none, none⟩)]

/-- A stale persisted record for the C6 witness. -/
def driftDemoDisk : StrMap PersistedServerCacheFile :=
  [(getCacheFilePath "/c" "b", ⟨"old", [], 0⟩)]

/-- Backend world for the C6 witness. -/
def driftDemoWorld : World := ⟨fun _ => none, fun _ => true, 3⟩


/-- Single healthy backend for the C4 witness. -/
def cachedemoWorld : World :=
  ⟨fun n => if n = "a" then some [⟨"x", none, none⟩] else none, fun _ => true, 5⟩

/-- Fresh manager state for the C4 witness. -/
def cachedemoState : ManagerState :=
  mkManager "/c" [("a", ⟨"cmd", none, none, none⟩)] StrMap.empty



/-- Backend `b` uniquely exposing a native tool literally named `b__t`. -/
def looksPrefixedWorld : World :=
  ⟨fun n => if n = "b" then some [⟨"b__t", none, none⟩] else none, fun _ => true, 0⟩

/-- The single-backend configuration for the C2 counterexample. -/
def looksPrefixedState : ManagerState :=
  (listAllTools looksPrefixedWorld
    (mkManager "/c" [("b", ⟨"cmd", none, none, none⟩)] StrMap.empty)).state

/-- A state with an aggregated index for the C2 witness. -/
def routeDemoState : ManagerState :=
  ⟨[("a", ⟨"cmd", none, none, none⟩)], "/c", StrMap.empty, StrMap.empty,
    [("a__x", "a"), ("y", "a")], true, StrMap.empty⟩

/-- A world whose backends are never consulted in the C2 witness. -/
def routeDemoWorld : World := ⟨fun _ => none, fun _ => true, 0⟩

/-- Three-backend world for the C1 counterexample: `a` and `b` collide on
native name `x` while `c` natively exposes the literal name `a__x`. -/
def composedCollisionWorld : World :=
  ⟨fun n =>
    if n = "a" then some [⟨"x", none, none⟩]
    else if n = "b" then some [⟨"x", none, none⟩]
    else if n = "c" then some [⟨"a__x", none, none⟩]
    else none, fun _ => true, 0⟩

/-- Three-backend configuration for the C1 counterexample. -/
def composedCollisionConfig : StrMap MCPServerConfig :=
  [("a", ⟨"cmdA", none, none, none⟩), ("b", ⟨"cmdB", none, none, none⟩),
    ("c", ⟨"cmdC", none, none, none⟩)]

/-- The aggregated state of the C1 counterexample run. -/
def composedCollisionState : ManagerState :=
  (listAllTools composedCollisionWorld
    (mkManager "/c" composedCollisionConfig StrMap.empty)).state

/-- Two backends colliding on native name `x`, for the C1 witness. -/
def plainCollisionWorld : World :=
  ⟨fun n => if n = "a" ∨ n = "b" then some [⟨"x", none, none⟩] else none,
    fun _ => true, 0⟩

/-- Two-backend configuration for the C1 witness. -/
def plainCollisionConfig : StrMap MCPServerConfig :=
  [("a", ⟨"cmdA", none, none, none⟩), ("b", ⟨"cmdB", none, none, none⟩)]

/-- Single-backend world for the C7 witness. -/
def unknownDemoWorld : World :=
  ⟨fun n => if n = "a" then some [⟨"x", none, none⟩] else none, fun _ => true, 0⟩

/-- Single-backend configuration for the C7 witness. -/
def unknownDemoConfig : StrMap MCPServerConfig := [("a", ⟨"cmdA", none, none, none⟩)]

/-! ## Association-list map lemmas -/

namespace StrMap

theorem get_cons {α : Type} (e : String × α) (t : StrMap α) (q : String) :
    StrMap.get (e :: t) q = if e.1 = q then some e.2 else t.get q := by
  rcases e with ⟨k, v⟩; rfl

theorem del_cons {α : Type} (e : String × α) (t : StrMap α) (k : String) :
    StrMap.del (e :: t) k = if e.1 = k then t.del k else e :: t.del k := by
  by_cases h : e.1 = k <;> simp [StrMap.del, List.filter_cons, h]

theorem get_del_self {α : Type} (m : StrMap α) (k : String) :
    (m.del k).get k = none := by
  induction m with
  | nil => rfl
  | cons e t ih =>
    rw [del_cons]
    by_cases h : e.1 = k
    · rw [if_pos h]; exact ih
    · rw [if_neg h, get_cons, if_neg h]; exact ih

theorem get_del_ne {α : Type} (m : StrMap α) {k q : String} (h : q ≠ k) :
    (m.del k).get q = m.get q := by
  induction m with
  | nil => rfl
  | cons e t ih =>
    rw [del_cons, get_cons]
    by_cases he : e.1 = k
    · rw [if_pos he, ih, if_neg]
      rw [he]; exact fun hq => h hq.symm
    · rw [if_neg he, get_cons]
      by_cases hq : e.1 = q
      · rw [if_pos hq, if_pos hq]
      · rw [if_neg hq, if_neg hq, ih]

theorem get_set_self {α : Type} (m : StrMap α) (k : String) (v : α) :
    (m.set k v).get k = some v := by
  simp [StrMap.set, get_cons]

theorem get_set_ne {α : Type} (m : StrMap α) {k q : String} (v : α) (h : q ≠ k) :
    (m.set k v).get q = m.get q := by
  rw [StrMap.set, get_cons, if_neg (fun hk => h hk.symm), get_del_ne m h]

theorem get_eq_none_iff {α : Type} (m : StrMap α) (k : String) :
    m.get k = none ↔ ∀ e ∈ m, e.1 ≠ k := by
  induction m with
  | nil => simp [StrMap.get]
  | cons e t ih =>
    rw [get_cons]
    by_cases h : e.1 = k
    · simp [h]
    · simp [h, ih]

theorem mem_del {α : Type} {m : StrMap α} {k : String} {e : String × α} :
    e ∈ m.del k ↔ e ∈ m ∧ e.1 ≠ k := by
  simp [StrMap.del, List.mem_filter]

theorem get_map_of_keyPreserving {α β : Type} (g : String × α → String × β)
    (hg : ∀ e, (g e).1 = e.1) (m : StrMap α) (q : String) :
    StrMap.get (m.map g) q = (m.get q).map (fun v => (g (q, v)).2) := by
  induction m with
  | nil => rfl
  | cons e t ih =>
    rcases e with ⟨k, v⟩
    rw [List.map_cons, get_cons, get_cons]
    by_cases h : k = q
    · subst h
      rw [if_pos (hg (k, v)), if_pos rfl]
      rfl
    · rw [if_neg, if_neg h, ih]
      rw [hg (k, v)]; exact h

end StrMap

/-! ## Catalog-cache and fetch lemmas -/


theorem StrMap.get_isSome_of_mem_keys {α : Type} {m : StrMap α} {k : String} :
    k ∈ m.keys → (m.get k).isSome := by
  induction m with
  | nil => intro hk; simp [StrMap.keys] at hk
  | cons e t ih =>
    intro hk
    simp only [StrMap.keys, List.map_cons, List.mem_cons] at hk
    rw [StrMap.get_cons]
    by_cases h : e.1 = k
    · simp [h]
    · rw [if_neg h]
      apply ih
      rcases hk with hk1 | hk1
      · exact absurd hk1.symm h
      · exact hk1

theorem fetchToolsFromServer_hit (w : World) (s : ManagerState) {n : String}
    {cfg : MCPServerConfig} {c : ServerToolsCache}
    (hcfg : s.config.get n = some cfg)
    (hc : s.serverToolsCache.get n = some c)
    (hsig : c.configSignature = getServerConfigSignature (some cfg))
    (hf : c.fetched = true) :
    fetchToolsFromServer w s n = ⟨s, c.tools, []⟩ := by
  simp [fetchToolsFromServer, hcfg, hc, hsig, hf]



theorem StrMap.get_set_ne_fun {α : Type} {k q : String} (h : q ≠ k) :
    ∀ (m : StrMap α) (v : α), (m.set k v).get q = m.get q :=
  fun m v => StrMap.get_set_ne m v h



section HelperFrames

variable (w : World) (s : ManagerState) (n : String) (cfg : MCPServerConfig)
variable (cache : ServerToolsCache)

@[simp] theorem disconnectClient_config : (disconnectClient w s n).config = s.config := by
  unfold disconnectClient; cases s.clients.get n <;> rfl

@[simp] theorem disconnectClient_cacheDir : (disconnectClient w s n).cacheDir = s.cacheDir := by
  unfold disconnectClient; cases s.clients.get n <;> rfl

@[simp] theorem disconnectClient_serverToolsCache :
    (disconnectClient w s n).serverToolsCache = s.serverToolsCache := by
  unfold disconnectClient; cases s.clients.get n <;> rfl

@[simp] theorem disconnectClient_toolToServer :
    (disconnectClient w s n).toolToServer = s.toolToServer := by
  unfold disconnectClient; cases s.clients.get n <;> rfl

@[simp] theorem disconnectClient_toolsAggregated :
    (disconnectClient w s n).toolsAggregated = s.toolsAggregated := by
  unfold disconnectClient; cases s.clients.get n <;> rfl

@[simp] theorem disconnectClient_disk : (disconnectClient w s n).disk = s.disk := by
  unfold disconnectClient; cases s.clients.get n <;> rfl

@[simp] theorem connectToServer_config : (connectToServer w s n cfg).config = s.config := by
  unfold connectToServer
  cases hcl : s.clients.get n with
  | none => rfl
  | some ex =>
    by_cases h : ex.configSignature = getServerConfigSignature (some cfg) <;> simp [h]

@[simp] theorem connectToServer_cacheDir : (connectToServer w s n cfg).cacheDir = s.cacheDir := by
  unfold connectToServer
  cases hcl : s.clients.get n with
  | none => rfl
  | some ex =>
    by_cases h : ex.configSignature = getServerConfigSignature (some cfg) <;> simp [h]

@[simp] theorem connectToServer_serverToolsCache :
    (connectToServer w s n cfg).serverToolsCache = s.serverToolsCache := by
  unfold connectToServer
  cases hcl : s.clients.get n with
  | none => rfl
  | some ex =>
    by_cases h : ex.configSignature = getServerConfigSignature (some cfg) <;> simp [h]

@[simp] theorem connectToServer_toolToServer :
    (connectToServer w s n cfg).toolToServer = s.toolToServer := by
  unfold connectToServer
  cases hcl : s.clients.get n with
  | none => rfl
  | some ex =>
    by_cases h : ex.configSignature = getServerConfigSignature (some cfg) <;> simp [h]

@[simp] theorem connectToServer_toolsAggregated :
    (connectToServer w s n cfg).toolsAggregated = s.toolsAggregated := by
  unfold connectToServer
  cases hcl : s.clients.get n with
  | none => rfl
  | some ex =>
    by_cases h : ex.configSignature = getServerConfigSignature (some cfg) <;> simp [h]

@[simp] theorem connectToServer_disk : (connectToServer w s n cfg).disk = s.disk := by
  unfold connectToServer
  cases hcl : s.clients.get n with
  | none => rfl
  | some ex =>
    by_cases h : ex.configSignature = getServerConfigSignature (some cfg) <;> simp [h]

@[simp] theorem persistServerCache_config :
    (persistServerCache w s n cache).config = s.config := by
  unfold persistServerCache; split <;> rfl

@[simp] theorem persistServerCache_cacheDir :
    (persistServerCache w s n cache).cacheDir = s.cacheDir := by
  unfold persistServerCache; split <;> rfl

@[simp] theorem persistServerCache_serverToolsCache :
    (persistServerCache w s n cache).serverToolsCache = s.serverToolsCache := by
  unfold persistServerCache; split <;> rfl

@[simp] theorem persistServerCache_toolToServer :
    (persistServerCache w s n cache).toolToServer = s.toolToServer := by
  unfold persistServerCache; split <;> rfl

@[simp] theorem persistServerCache_toolsAggregated :
    (persistServerCache w s n cache).toolsAggregated = s.toolsAggregated := by
  unfold persistServerCache; split <;> rfl

@[simp] theorem persistServerCache_clients :
    (persistServerCache w s n cache).clients = s.clients := by
  unfold persistServerCache; split <;> rfl

end HelperFrames



theorem fetchToolsFromServer_frame_cache (w : World) (s : ManagerState) (n m : String)
    (hm : m ≠ n) :
    (fetchToolsFromServer w s n).state.serverToolsCache.get m =
      s.serverToolsCache.get m := by
  unfold fetchToolsFromServer
  cases hcfg : s.config.get n with
  | none => rfl
  | some cfg =>
    cases hc : s.serverToolsCache.get n with
    | none =>
      cases hd : loadCacheFromDisk s n with
      | none =>
        cases hw : w.listToolsResult n with
        | some rawTools =>
          simp [markAggregationStale, hw, StrMap.get_set_ne_fun hm]
        | none =>
          simp [markAggregationStale, hw, StrMap.get_set_ne_fun hm]
      | some persisted =>
        by_cases hps : persisted.configSignature = getServerConfigSignature (some cfg)
        · simp [hps, StrMap.get_set_ne_fun hm]
        · cases hw : w.listToolsResult n with
          | some rawTools =>
            simp [hps, markAggregationStale, removeCacheFile, hw,
              StrMap.get_set_ne_fun hm]
          | none =>
            simp [hps, markAggregationStale, removeCacheFile, hw,
              StrMap.get_set_ne_fun hm]
    | some cache =>
      by_cases hcs : cache.configSignature = getServerConfigSignature (some cfg)
      · cases hcf : cache.fetched with
        | true => simp [hcs, hcf]
        | false =>
          cases hw : w.listToolsResult n with
          | some rawTools => simp [hcs, hcf, hw, StrMap.get_set_ne_fun hm]
          | none => simp [hcs, hcf, hw, StrMap.get_set_ne_fun hm]
      · cases hw : w.listToolsResult n with
        | some rawTools =>
          simp [hcs, markAggregationStale, removeCacheFile, hw,
            StrMap.get_set_ne_fun hm]
        | none =>
          simp [hcs, markAggregationStale, removeCacheFile, hw,
            StrMap.get_set_ne_fun hm]



theorem fetchToolsFromServer_config (w : World) (s : ManagerState) (n : String) :
    (fetchToolsFromServer w s n).state.config = s.config ∧
    (fetchToolsFromServer w s n).state.cacheDir = s.cacheDir := by
  unfold fetchToolsFromServer
  cases hcfg : s.config.get n with
  | none => exact ⟨rfl, rfl⟩
  | some cfg =>
    cases hc : s.serverToolsCache.get n with
    | none =>
      cases hd : loadCacheFromDisk s n with
      | none =>
        cases hw : w.listToolsResult n with
        | some rawTools => simp [markAggregationStale, hw]
        | none => simp [markAggregationStale, hw]
      | some persisted =>
        by_cases hps : persisted.configSignature = getServerConfigSignature (some cfg)
        · simp [hps]
        · cases hw : w.listToolsResult n with
          | some rawTools => simp [hps, markAggregationStale, removeCacheFile, hw]
          | none => simp [hps, markAggregationStale, removeCacheFile, hw]
    | some cache =>
      by_cases hcs : cache.configSignature = getServerConfigSignature (some cfg)
      · cases hcf : cache.fetched with
        | true => simp [hcs, hcf]
        | false =>
          cases hw : w.listToolsResult n with
          | some rawTools => simp [hcs, hcf, hw]
          | none => simp [hcs, hcf, hw]
      · cases hw : w.listToolsResult n with
        | some rawTools => simp [hcs, markAggregationStale, removeCacheFile, hw]
        | none => simp [hcs, markAggregationStale, removeCacheFile, hw]

theorem fetchToolsFromServer_cache_self (w : World) (s : ManagerState) (n : String)
    {cfg : MCPServerConfig} (hcfg : s.config.get n = some cfg) :
    (fetchToolsFromServer w s n).state.serverToolsCache.get n =
      some ⟨(fetchToolsFromServer w s n).tools, true,
        getServerConfigSignature (some cfg)⟩ := by
  unfold fetchToolsFromServer
  rw [hcfg]
  cases hc : s.serverToolsCache.get n with
  | none =>
    cases hd : loadCacheFromDisk s n with
    | none =>
      cases hw : w.listToolsResult n with
      | some rawTools => simp [markAggregationStale, hw, StrMap.get_set_self]
      | none => simp [markAggregationStale, hw, StrMap.get_set_self]
    | some persisted =>
      by_cases hps : persisted.configSignature = getServerConfigSignature (some cfg)
      · simp [hps, StrMap.get_set_self]
      · cases hw : w.listToolsResult n with
        | some rawTools =>
          simp [hps, markAggregationStale, removeCacheFile, hw, StrMap.get_set_self]
        | none =>
          simp [hps, markAggregationStale, removeCacheFile, hw, StrMap.get_set_self]
  | some cache =>
    by_cases hcs : cache.configSignature = getServerConfigSignature (some cfg)
    · cases hcf : cache.fetched with
      | true =>
        rcases cache with ⟨ct, cf, cs⟩
        simp only at hcf hcs
        subst hcf
        subst hcs
        simp [hc]
      | false =>
        cases hw : w.listToolsResult n with
        | some rawTools => simp [hcs, hcf, hw, StrMap.get_set_self]
        | none => simp [hcs, hcf, hw, StrMap.get_set_self]
    · cases hw : w.listToolsResult n with
      | some rawTools =>
        simp [hcs, markAggregationStale, removeCacheFile, hw, StrMap.get_set_self]
      | none =>
        simp [hcs, markAggregationStale, removeCacheFile, hw, StrMap.get_set_self]



theorem fetchAllServers_all_hit (w : World) :
    ∀ (names : List String) (s : ManagerState),
      (∀ m ∈ names, hitAt s m) →
      fetchAllServers w s names = (s, names.map (fun m => cacheToolsAt s m), []) := by
  intro names
  induction names with
  | nil => intro s _; rfl
  | cons n ns ih =>
    intro s h
    rcases h n (List.mem_cons_self n ns) with ⟨cfg, c, hcfg, hc, hf, hsig⟩
    have hfetch := fetchToolsFromServer_hit w s hcfg hc hsig hf
    simp only [fetchAllServers, hfetch, ih s (fun m hm => h m (List.mem_cons_of_mem n hm))]
    simp [cacheToolsAt, hc]



theorem fetchAllServers_post (w : World) :
    ∀ (names : List String) (s : ManagerState),
      names.Nodup →
      (∀ m ∈ names, (s.config.get m).isSome) →
      (fetchAllServers w s names).1.config = s.config ∧
      (fetchAllServers w s names).1.cacheDir = s.cacheDir ∧
      (∀ m ∈ names, hitAt (fetchAllServers w s names).1 m) ∧
      (fetchAllServers w s names).2.1 =
        names.map (fun m => cacheToolsAt (fetchAllServers w s names).1 m) ∧
      (∀ m, m ∉ names →
        (fetchAllServers w s names).1.serverToolsCache.get m =
          s.serverToolsCache.get m) := by
  intro names
  induction names with
  | nil => intro s _ _; exact ⟨rfl, rfl, by simp, by simp [fetchAllServers], fun m _ => rfl⟩
  | cons n ns ih =>
    intro s hnd hcfg
    have hn : (s.config.get n).isSome := hcfg n (List.mem_cons_self n ns)
    rcases Option.isSome_iff_exists.mp hn with ⟨cfg, hcfgn⟩
    have hr1config := (fetchToolsFromServer_config w s n).1
    have hr1cd := (fetchToolsFromServer_config w s n).2
    have hr1self := fetchToolsFromServer_cache_self w s n hcfgn
    rcases List.nodup_cons.mp hnd with ⟨hnotin, hndns⟩
    have hcfg2 : ∀ m ∈ ns, ((fetchToolsFromServer w s n).state.config.get m).isSome := by
      intro m hm
      rw [hr1config]
      exact hcfg m (List.mem_cons_of_mem n hm)
    rcases ih (fetchToolsFromServer w s n).state hndns hcfg2 with
      ⟨ih1, ih2, ih3, ih4, ih5⟩
    simp only [fetchAllServers]
    refine ⟨by rw [ih1, hr1config], by rw [ih2, hr1cd], ?_, ?_, ?_⟩
    · intro m hm
      rcases List.mem_cons.mp hm with hm1 | hm1
      · subst hm1
        exact ⟨cfg, ⟨(fetchToolsFromServer w s m).tools, true,
          getServerConfigSignature (some cfg)⟩,
          by rw [ih1, hr1config]; exact hcfgn,
          by rw [ih5 m hnotin, hr1self], rfl, rfl⟩
      · exact ih3 m hm1
    · have hhead : (fetchToolsFromServer w s n).tools =
          cacheToolsAt (fetchAllServers w (fetchToolsFromServer w s n).state ns).1 n := by
        rw [cacheToolsAt, ih5 n hnotin, hr1self]
        rfl
      rw [List.map_cons, ← hhead, ih4]
    · intro m hm
      have hm1 : m ≠ n := fun he => hm (he ▸ List.mem_cons_self n ns)
      have hm2 : m ∉ ns := fun hin => hm (List.mem_cons_of_mem n hin)
      rw [ih5 m hm2, fetchToolsFromServer_frame_cache w s n m hm1]



theorem aggregateTools_config (s : ManagerState) (allTools : List AggregatedTool) :
    (aggregateTools s allTools).config = s.config := rfl

theorem aggregateTools_cacheDir (s : ManagerState) (allTools : List AggregatedTool) :
    (aggregateTools s allTools).cacheDir = s.cacheDir := rfl

theorem aggregateTools_aggregated (s : ManagerState) (allTools : List AggregatedTool) :
    (aggregateTools s allTools).toolsAggregated = true := rfl

theorem aggregateTools_cache_get (s : ManagerState) (allTools : List AggregatedTool)
    (m : String) :
    (aggregateTools s allTools).serverToolsCache.get m =
      (s.serverToolsCache.get m).map (fun c =>
        if (s.config.keys).contains m then
          { c with tools := c.tools.map (renameTool allTools) } else c) := by
  have h := StrMap.get_map_of_keyPreserving
    (fun e => (e.1, if (s.config.keys).contains e.1 then
      { e.2 with tools := e.2.tools.map (renameTool allTools) } else e.2))
    (fun e => rfl) s.serverToolsCache m
  exact h

theorem listAllTools_aggregated (w : World) (s : ManagerState) :
    (listAllTools w s).state.toolsAggregated = true := by
  simp only [listAllTools]
  cases h : (fetchAllServers w s s.config.keys).1.toolsAggregated
  · simp [h, aggregateTools_aggregated]
  · simp [h]



theorem listAllTools_all_hit (w : World) (t : ManagerState)
    (hagg : t.toolsAggregated = true)
    (hhit : ∀ m ∈ t.config.keys, hitAt t m) :
    listAllTools w t =
      ⟨t, (t.config.keys.map (fun m => cacheToolsAt t m)).flatten, []⟩ := by
  simp only [listAllTools, fetchAllServers_all_hit w t.config.keys t hhit, hagg, if_true]

/-- C4: calling `listAllTools` a second time with no configuration change
returns exactly the first call's entry list, leaves the state untouched,
and invokes no backend's list-tools operation (an empty trace: every
per-backend fetch is served from the in-memory cache). -/
theorem listAllTools_second_call_cached (w : World) (s : ManagerState)
    (hnd : s.config.keys.Nodup) :
    listAllTools w (listAllTools w s).state =
      ⟨(listAllTools w s).state, (listAllTools w s).tools, []⟩ := by
  have hconf : ∀ m ∈ s.config.keys, (s.config.get m).isSome :=
    fun m hm => StrMap.get_isSome_of_mem_keys hm
  obtain ⟨h1, h2, h3, h4, h5⟩ := fetchAllServers_post w s.config.keys s hnd hconf
  cases hagg : (fetchAllServers w s s.config.keys).1.toolsAggregated with
  | true =>
    have hfirst : listAllTools w s =
        ⟨(fetchAllServers w s s.config.keys).1,
          (fetchAllServers w s s.config.keys).2.1.flatten,
          (fetchAllServers w s s.config.keys).2.2⟩ := by
      simp only [listAllTools, hagg, if_true]
    rw [hfirst]
    have hkeys : (fetchAllServers w s s.config.keys).1.config.keys = s.config.keys := by
      rw [h1]
    rw [listAllTools_all_hit w _ hagg (by rw [hkeys]; exact h3)]
    rw [FetchOut.mk.injEq]
    refine ⟨rfl, ?_, rfl⟩
    rw [hkeys, ← h4]
  | false =>
    have hfirst : listAllTools w s =
        ⟨aggregateTools (fetchAllServers w s s.config.keys).1
            (fetchAllServers w s s.config.keys).2.1.flatten,
          ((fetchAllServers w s s.config.keys).2.1.flatten).map
            (renameTool ((fetchAllServers w s s.config.keys).2.1.flatten)),
          (fetchAllServers w s s.config.keys).2.2⟩ := by
      simp only [listAllTools, hagg, Bool.false_eq_true, if_false]
    rw [hfirst]
    have hs2conf : (aggregateTools (fetchAllServers w s s.config.keys).1
        (fetchAllServers w s s.config.keys).2.1.flatten).config = s.config := by
      rw [aggregateTools_config, h1]
    have hs2keys : (aggregateTools (fetchAllServers w s s.config.keys).1
        (fetchAllServers w s s.config.keys).2.1.flatten).config.keys = s.config.keys := by
      rw [hs2conf]
    have hhit2 : ∀ m ∈ (aggregateTools (fetchAllServers w s s.config.keys).1
          (fetchAllServers w s s.config.keys).2.1.flatten).config.keys,
        hitAt (aggregateTools (fetchAllServers w s s.config.keys).1
          (fetchAllServers w s s.config.keys).2.1.flatten) m := by
      intro m hm
      rw [hs2keys] at hm
      rcases h3 m hm with ⟨cfg, c, hcfg, hc, hf, hsig⟩
      refine ⟨cfg, _, by rw [hs2conf, ← h1]; exact hcfg,
        by rw [aggregateTools_cache_get, hc]; rfl, ?_, ?_⟩
      · split <;> simpa using hf
      · split <;> simpa using hsig
    rw [listAllTools_all_hit w _ (aggregateTools_aggregated _ _) hhit2]
    rw [FetchOut.mk.injEq]
    refine ⟨rfl, ?_, rfl⟩
    rw [hs2keys]
    have hpt : ∀ m ∈ s.config.keys,
        cacheToolsAt (aggregateTools (fetchAllServers w s s.config.keys).1
            (fetchAllServers w s s.config.keys).2.1.flatten) m =
          (cacheToolsAt (fetchAllServers w s s.config.keys).1 m).map
            (renameTool ((fetchAllServers w s s.config.keys).2.1.flatten)) := by
      intro m hm
      have hcont : ((fetchAllServers w s s.config.keys).1.config.keys).contains m = true := by
        rw [h1]; exact List.elem_eq_true_of_mem hm
      rcases h3 m hm with ⟨cfg, c, hcfg, hc, hf, hsig⟩
      rw [cacheToolsAt, cacheToolsAt, aggregateTools_cache_get, hc, hcont]
      simp
    rw [List.map_congr_left hpt]
    have hmm : List.map (fun m => (cacheToolsAt (fetchAllServers w s s.config.keys).1 m).map
          (renameTool ((fetchAllServers w s s.config.keys).2.1.flatten))) s.config.keys =
        ((fetchAllServers w s s.config.keys).2.1).map
          (List.map (renameTool ((fetchAllServers w s s.config.keys).2.1.flatten))) := by
      rw [h4, List.map_map]
      rfl
    rw [hmm, ← List.map_flatten]

theorem listAllTools_second_call_cached_witness :
    listAllTools cachedemoWorld (listAllTools cachedemoWorld cachedemoState).state =
      ⟨(listAllTools cachedemoWorld cachedemoState).state,
        (listAllTools cachedemoWorld cachedemoState).tools, []⟩ :=
  listAllTools_second_call_cached cachedemoWorld cachedemoState (by decide)


/-! ## Constructor, session and drift lemmas -/


section StepLemmas

variable (st : ManagerState) (e : String × MCPServerConfig)

@[simp] theorem mkManagerStep_config : (mkManagerStep st e).config = st.config := by
  simp only [mkManagerStep]
  cases hld : loadCacheFromDisk st e.1 with
  | none => rfl
  | some p =>
    by_cases h : p.configSignature = getServerConfigSignature (some e.2) <;>
      simp [h, removeCacheFile]

@[simp] theorem mkManagerStep_cacheDir : (mkManagerStep st e).cacheDir = st.cacheDir := by
  simp only [mkManagerStep]
  cases hld : loadCacheFromDisk st e.1 with
  | none => rfl
  | some p =>
    by_cases h : p.configSignature = getServerConfigSignature (some e.2) <;>
      simp [h, removeCacheFile]

@[simp] theorem mkManagerStep_clients : (mkManagerStep st e).clients = st.clients := by
  simp only [mkManagerStep]
  cases hld : loadCacheFromDisk st e.1 with
  | none => rfl
  | some p =>
    by_cases h : p.configSignature = getServerConfigSignature (some e.2) <;>
      simp [h, removeCacheFile]

@[simp] theorem mkManagerStep_toolToServer :
    (mkManagerStep st e).toolToServer = st.toolToServer := by
  simp only [mkManagerStep]
  cases hld : loadCacheFromDisk st e.1 with
  | none => rfl
  | some p =>
    by_cases h : p.configSignature = getServerConfigSignature (some e.2) <;>
      simp [h, removeCacheFile]

@[simp] theorem mkManagerStep_toolsAggregated :
    (mkManagerStep st e).toolsAggregated = st.toolsAggregated := by
  simp only [mkManagerStep]
  cases hld : loadCacheFromDisk st e.1 with
  | none => rfl
  | some p =>
    by_cases h : p.configSignature = getServerConfigSignature (some e.2) <;>
      simp [h, removeCacheFile]

theorem mkManagerStep_cache_other {b : String} (hb : b ≠ e.1) :
    (mkManagerStep st e).serverToolsCache.get b = st.serverToolsCache.get b := by
  simp only [mkManagerStep]
  cases hld : loadCacheFromDisk st e.1 with
  | none => simp [StrMap.get_set_ne_fun hb]
  | some p =>
    by_cases h : p.configSignature = getServerConfigSignature (some e.2) <;>
      simp [h, removeCacheFile, StrMap.get_set_ne_fun hb]

theorem mkManagerStep_disk_other {q : String}
    (hq : q ≠ getCacheFilePath st.cacheDir e.1) :
    (mkManagerStep st e).disk.get q = st.disk.get q := by
  simp only [mkManagerStep]
  cases hld : loadCacheFromDisk st e.1 with
  | none => rfl
  | some p =>
    by_cases h : p.configSignature = getServerConfigSignature (some e.2)
    · simp [h]
    · simp [h, removeCacheFile, StrMap.get_del_ne _ hq]

theorem mkManagerStep_self_none
    (hd : st.disk.get (getCacheFilePath st.cacheDir e.1) = none) :
    (mkManagerStep st e).serverToolsCache.get e.1 =
      some ⟨[], false, getServerConfigSignature (some e.2)⟩ ∧
    (mkManagerStep st e).disk = st.disk := by
  simp only [mkManagerStep]
  rw [show loadCacheFromDisk st e.1 = none from hd]
  exact ⟨StrMap.get_set_self _ _ _, rfl⟩

theorem mkManagerStep_self_match {rec : PersistedServerCacheFile}
    (hd : st.disk.get (getCacheFilePath st.cacheDir e.1) = some rec)
    (hsig : rec.configSignature = getServerConfigSignature (some e.2)) :
    (mkManagerStep st e).serverToolsCache.get e.1 =
      some ⟨rec.tools, true, getServerConfigSignature (some e.2)⟩ ∧
    (mkManagerStep st e).disk = st.disk := by
  simp only [mkManagerStep]
  rw [show loadCacheFromDisk st e.1 = some rec from hd]
  simp [hsig, StrMap.get_set_self]

theorem mkManagerStep_self_mismatch {rec : PersistedServerCacheFile}
    (hd : st.disk.get (getCacheFilePath st.cacheDir e.1) = some rec)
    (hsig : rec.configSignature ≠ getServerConfigSignature (some e.2)) :
    (mkManagerStep st e).serverToolsCache.get e.1 =
      some ⟨[], false, getServerConfigSignature (some e.2)⟩ ∧
    (mkManagerStep st e).disk.get (getCacheFilePath st.cacheDir e.1) = none := by
  simp only [mkManagerStep]
  rw [show loadCacheFromDisk st e.1 = some rec from hd]
  simp [hsig, removeCacheFile, StrMap.get_set_self, StrMap.get_del_self]

end StepLemmas



theorem mkManager_fold_pres :
    ∀ (entries : List (String × MCPServerConfig)) (st : ManagerState),
      (entries.foldl mkManagerStep st).config = st.config ∧
      (entries.foldl mkManagerStep st).cacheDir = st.cacheDir ∧
      (entries.foldl mkManagerStep st).clients = st.clients ∧
      (entries.foldl mkManagerStep st).toolToServer = st.toolToServer ∧
      (entries.foldl mkManagerStep st).toolsAggregated = st.toolsAggregated := by
  intro entries
  induction entries with
  | nil => intro st; exact ⟨rfl, rfl, rfl, rfl, rfl⟩
  | cons e rest ih =>
    intro st
    rcases ih (mkManagerStep st e) with ⟨i1, i2, i3, i4, i5⟩
    simp only [List.foldl_cons]
    exact ⟨by rw [i1]; simp, by rw [i2]; simp, by rw [i3]; simp,
      by rw [i4]; simp, by rw [i5]; simp⟩

theorem mkManager_fold_absent :
    ∀ (entries : List (String × MCPServerConfig)) (st : ManagerState) (b : String),
      b ∉ entries.map Prod.fst →
      (∀ e ∈ entries,
        getCacheFilePath st.cacheDir e.1 ≠ getCacheFilePath st.cacheDir b) →
      (entries.foldl mkManagerStep st).serverToolsCache.get b =
        st.serverToolsCache.get b ∧
      (entries.foldl mkManagerStep st).disk.get (getCacheFilePath st.cacheDir b) =
        st.disk.get (getCacheFilePath st.cacheDir b) := by
  intro entries
  induction entries with
  | nil => intro st b _ _; exact ⟨rfl, rfl⟩
  | cons e rest ih =>
    intro st b hb hp
    have hbne : b ≠ e.1 := by
      intro he
      exact hb (he ▸ List.mem_map_of_mem Prod.fst (List.mem_cons_self e rest))
    have hbrest : b ∉ rest.map Prod.fst := by
      intro hin
      exact hb (List.mem_cons_of_mem _ hin)
    have hcd : (mkManagerStep st e).cacheDir = st.cacheDir := by simp
    have hprest : ∀ e2 ∈ rest,
        getCacheFilePath (mkManagerStep st e).cacheDir e2.1 ≠
          getCacheFilePath (mkManagerStep st e).cacheDir b := by
      intro e2 he2
      rw [hcd]
      exact hp e2 (List.mem_cons_of_mem _ he2)
    rcases ih (mkManagerStep st e) b hbrest hprest with ⟨i1, i2⟩
    simp only [List.foldl_cons]
    constructor
    · rw [i1, mkManagerStep_cache_other st e hbne]
    · rw [hcd] at i2
      rw [i2, mkManagerStep_disk_other]
      exact (hp e (List.mem_cons_self e rest)).symm

theorem mkManager_fold_found :
    ∀ (entries : List (String × MCPServerConfig)) (st : ManagerState) (b : String)
      (cfg : MCPServerConfig),
      (entries.map Prod.fst).Nodup →
      StrMap.get entries b = some cfg →
      (∀ e ∈ entries, e.1 ≠ b →
        getCacheFilePath st.cacheDir e.1 ≠ getCacheFilePath st.cacheDir b) →
      ((entries.foldl mkManagerStep st).serverToolsCache.get b,
        (entries.foldl mkManagerStep st).disk.get (getCacheFilePath st.cacheDir b)) =
      (match st.disk.get (getCacheFilePath st.cacheDir b) with
       | none => (some ⟨[], false, getServerConfigSignature (some cfg)⟩, none)
       | some rec =>
         if rec.configSignature = getServerConfigSignature (some cfg) then
           (some ⟨rec.tools, true, getServerConfigSignature (some cfg)⟩, some rec)
         else
           (some ⟨[], false, getServerConfigSignature (some cfg)⟩, none)) := by
  intro entries
  induction entries with
  | nil => intro st b cfg _ hget _; exact absurd hget (by simp [StrMap.get])
  | cons e rest ih =>
    intro st b cfg hnd hget hp
    rcases List.nodup_cons.mp hnd with ⟨hnotin, hndrest⟩
    rcases e with ⟨n, c⟩
    rw [StrMap.get_cons] at hget
    by_cases heb : n = b
    · subst heb
      rw [if_pos rfl] at hget
      injection hget with hcfg
      rw [← hcfg]
      have hbrest : n ∉ rest.map Prod.fst := hnotin
      have hcd : (mkManagerStep st (n, c)).cacheDir = st.cacheDir := by simp
      have hprest : ∀ e2 ∈ rest,
          getCacheFilePath (mkManagerStep st (n, c)).cacheDir e2.1 ≠
            getCacheFilePath (mkManagerStep st (n, c)).cacheDir n := by
        intro e2 he2
        rw [hcd]
        by_cases he2b : e2.1 = n
        · intro _
          exact hbrest (he2b ▸ List.mem_map_of_mem Prod.fst he2)
        · exact hp e2 (List.mem_cons_of_mem _ he2) he2b
      rcases mkManager_fold_absent rest (mkManagerStep st (n, c)) n hbrest hprest
        with ⟨a1, a2⟩
      simp only [List.foldl_cons]
      rw [hcd] at a2
      cases hd : st.disk.get (getCacheFilePath st.cacheDir n) with
      | none =>
        rcases mkManagerStep_self_none st (n, c) hd with ⟨s1, s2⟩
        rw [a1, a2, s1, s2, hd]
      | some rec =>
        by_cases hsig : rec.configSignature = getServerConfigSignature (some c)
        · rcases mkManagerStep_self_match st (n, c) hd hsig with ⟨s1, s2⟩
          rw [a1, a2, s1, s2]
          simp [hsig]
          exact hd
        · rcases mkManagerStep_self_mismatch st (n, c) hd hsig with ⟨s1, s2⟩
          rw [a1, a2, s1, s2]
          simp [hsig]
    · rw [if_neg heb] at hget
      have hcd : (mkManagerStep st (n, c)).cacheDir = st.cacheDir := by simp
      have hpe : getCacheFilePath st.cacheDir n ≠ getCacheFilePath st.cacheDir b :=
        hp (n, c) (List.mem_cons_self (n, c) rest) heb
      have hdisk : (mkManagerStep st (n, c)).disk.get (getCacheFilePath st.cacheDir b) =
          st.disk.get (getCacheFilePath st.cacheDir b) :=
        mkManagerStep_disk_other st (n, c) hpe.symm
      have hprest : ∀ e2 ∈ rest, e2.1 ≠ b →
          getCacheFilePath (mkManagerStep st (n, c)).cacheDir e2.1 ≠
            getCacheFilePath (mkManagerStep st (n, c)).cacheDir b := by
        intro e2 he2 he2b
        rw [hcd]
        exact hp e2 (List.mem_cons_of_mem _ he2) he2b
      have := ih (mkManagerStep st (n, c)) b cfg hndrest hget hprest
      simp only [List.foldl_cons]
      rw [hcd] at this
      rw [this, hdisk]



theorem disconnectClient_clients_get_self (w : World) (s : ManagerState) (n : String) :
    (disconnectClient w s n).clients.get n = none := by
  unfold disconnectClient
  cases h : s.clients.get n with
  | none => exact h
  | some v => exact StrMap.get_del_self _ _

theorem connectToServer_clients_self (w : World) (s : ManagerState) (n : String)
    (cfg : MCPServerConfig) :
    ∀ sess, (connectToServer w s n cfg).clients.get n = some sess →
      sess.configSignature = getServerConfigSignature (some cfg) := by
  unfold connectToServer
  cases hcl : s.clients.get n with
  | none =>
    intro sess h
    rw [StrMap.get_set_self] at h
    injection h with h
    rw [← h]
  | some ex =>
    by_cases hs : ex.configSignature = getServerConfigSignature (some cfg)
    · intro sess h
      simp only [hs, if_true] at h
      rw [hcl] at h
      injection h with h
      rw [← h]
      exact hs
    · intro sess h
      simp only [hs, if_false] at h
      rw [StrMap.get_set_self] at h
      injection h with h
      rw [← h]

theorem fetchToolsFromServer_seeded (w : World) (s : ManagerState) (b : String)
    {cfg : MCPServerConfig} {c : ServerToolsCache}
    (hcfg : s.config.get b = some cfg)
    (hc : s.serverToolsCache.get b = some c)
    (hf : c.fetched = false)
    (hsig : c.configSignature = getServerConfigSignature (some cfg)) :
    (fetchToolsFromServer w s b).tools =
      ((w.listToolsResult b).getD []).map (toTool b) ∧
    (fetchToolsFromServer w s b).trace = [b] ∧
    (fetchToolsFromServer w s b).state.toolsAggregated = s.toolsAggregated ∧
    (fetchToolsFromServer w s b).state.toolToServer = s.toolToServer ∧
    (fetchToolsFromServer w s b).state.disk.get (getCacheFilePath s.cacheDir b) =
      some ⟨getServerConfigSignature (some cfg),
        ((w.listToolsResult b).getD []).map (toTool b), w.now⟩ := by
  unfold fetchToolsFromServer
  rw [hcfg, hc]
  cases hw : w.listToolsResult b with
  | some rawTools =>
    simp [hsig, hf, hw, persistServerCache, StrMap.get_set_self]
  | none =>
    simp [hsig, hf, hw, persistServerCache, StrMap.get_set_self]

theorem fetchToolsFromServer_drift (w : World) (s : ManagerState) (b : String)
    {cfg : MCPServerConfig} {c : ServerToolsCache}
    (hcfg : s.config.get b = some cfg)
    (hc : s.serverToolsCache.get b = some c)
    (hsig : c.configSignature ≠ getServerConfigSignature (some cfg)) :
    (fetchToolsFromServer w s b).tools =
      ((w.listToolsResult b).getD []).map (toTool b) ∧
    (fetchToolsFromServer w s b).trace = [b] ∧
    (∀ sess, (fetchToolsFromServer w s b).state.clients.get b = some sess →
      sess.configSignature = getServerConfigSignature (some cfg)) ∧
    (∀ r, (fetchToolsFromServer w s b).state.disk.get
        (getCacheFilePath s.cacheDir b) = some r →
      r.configSignature = getServerConfigSignature (some cfg)) := by
  refine ⟨?_, ?_, ?_, ?_⟩
  · unfold fetchToolsFromServer
    rw [hcfg, hc]
    cases hw : w.listToolsResult b with
    | some rawTools => simp [hsig, hw]
    | none => simp [hsig, hw]
  · unfold fetchToolsFromServer
    rw [hcfg, hc]
    cases hw : w.listToolsResult b with
    | some rawTools => simp [hsig, hw]
    | none => simp [hsig, hw]
  · intro sess h
    unfold fetchToolsFromServer at h
    rw [hcfg, hc] at h
    cases hw : w.listToolsResult b with
    | some rawTools =>
      simp only [hsig, ne_eq, not_false_eq_true, if_true, hw, Bool.false_eq_true,
        if_false, markAggregationStale, removeCacheFile,
        persistServerCache_clients] at h
      exact connectToServer_clients_self w _ b cfg sess h
    | none =>
      simp only [hsig, ne_eq, not_false_eq_true, if_true, hw, Bool.false_eq_true,
        if_false, markAggregationStale, removeCacheFile,
        persistServerCache_clients] at h
      rw [disconnectClient_clients_get_self] at h
      exact Option.noConfusion h
  · intro r h
    unfold fetchToolsFromServer at h
    rw [hcfg, hc] at h
    cases hw : w.listToolsResult b with
    | some rawTools =>
      simp only [hsig, ne_eq, not_false_eq_true, if_true, hw, Bool.false_eq_true,
        if_false, markAggregationStale, removeCacheFile, persistServerCache,
        connectToServer_cacheDir, disconnectClient_cacheDir, disconnectClient_disk,
        StrMap.get_set_self] at h
      injection h with h2
      rw [← h2]
    | none =>
      simp only [hsig, ne_eq, not_false_eq_true, if_true, hw, Bool.false_eq_true,
        if_false, markAggregationStale, removeCacheFile, persistServerCache,
        connectToServer_cacheDir, disconnectClient_cacheDir, disconnectClient_disk,
        StrMap.get_set_self] at h
      injection h with h2
      rw [← h2]



theorem mkManager_fold_cache_absent :
    ∀ (entries : List (String × MCPServerConfig)) (st : ManagerState) (b : String),
      b ∉ entries.map Prod.fst →
      (entries.foldl mkManagerStep st).serverToolsCache.get b =
        st.serverToolsCache.get b := by
  intro entries
  induction entries with
  | nil => intro st b _; rfl
  | cons e rest ih =>
    intro st b hb
    have hbne : b ≠ e.1 := by
      intro he
      exact hb (he ▸ List.mem_map_of_mem Prod.fst (List.mem_cons_self e rest))
    have hbrest : b ∉ rest.map Prod.fst := fun hin => hb (List.mem_cons_of_mem _ hin)
    simp only [List.foldl_cons]
    rw [ih (mkManagerStep st e) b hbrest, mkManagerStep_cache_other st e hbne]

theorem mkManager_fold_empty :
    ∀ (entries : List (String × MCPServerConfig)) (st : ManagerState),
      st.disk = [] →
      (entries.foldl mkManagerStep st).disk = [] ∧
      (∀ b cfg, (entries.map Prod.fst).Nodup → StrMap.get entries b = some cfg →
        (entries.foldl mkManagerStep st).serverToolsCache.get b =
          some ⟨[], false, getServerConfigSignature (some cfg)⟩) := by
  intro entries
  induction entries with
  | nil =>
    intro st hd
    exact ⟨hd, fun b cfg _ hget => absurd hget (by simp [StrMap.get])⟩
  | cons e rest ih =>
    intro st hd
    have hload : loadCacheFromDisk st e.1 = none := by
      unfold loadCacheFromDisk
      rw [hd]
      rfl
    rcases mkManagerStep_self_none st e (by unfold loadCacheFromDisk at hload; exact hload)
      with ⟨s1, s2⟩
    have hd1 : (mkManagerStep st e).disk = [] := by rw [s2, hd]
    rcases ih (mkManagerStep st e) hd1 with ⟨i1, i2⟩
    simp only [List.foldl_cons]
    refine ⟨i1, ?_⟩
    intro b cfg hnd hget
    rcases List.nodup_cons.mp hnd with ⟨hnotin, hndrest⟩
    rcases e with ⟨n, c⟩
    rw [StrMap.get_cons] at hget
    by_cases heb : n = b
    · subst heb
      rw [if_pos rfl] at hget
      injection hget with hcfg
      rw [← hcfg]
      rw [mkManager_fold_cache_absent rest (mkManagerStep st (n, c)) n hnotin]
      exact s1
    · rw [if_neg heb] at hget
      exact i2 b cfg hndrest hget



theorem fetchAllServers_fresh (w : World) :
    ∀ (names : List String) (s : ManagerState),
      names.Nodup →
      (∀ m ∈ names, ∃ cfg, s.config.get m = some cfg ∧
        s.serverToolsCache.get m =
          some ⟨[], false, getServerConfigSignature (some cfg)⟩) →
      (fetchAllServers w s names).2.1 =
        names.map (fun n => ((w.listToolsResult n).getD []).map (toTool n)) ∧
      (fetchAllServers w s names).1.toolsAggregated = s.toolsAggregated := by
  intro names
  induction names with
  | nil => intro s _ _; exact ⟨rfl, rfl⟩
  | cons n ns ih =>
    intro s hnd hseed
    rcases List.nodup_cons.mp hnd with ⟨hnotin, hndns⟩
    rcases hseed n (List.mem_cons_self n ns) with ⟨cfg, hcfg, hc⟩
    rcases fetchToolsFromServer_seeded w s n hcfg hc rfl rfl with ⟨f1, _f2, f3, _f4, _f5⟩
    have hseed2 : ∀ m ∈ ns, ∃ cfg2, (fetchToolsFromServer w s n).state.config.get m = some cfg2 ∧
        (fetchToolsFromServer w s n).state.serverToolsCache.get m =
          some ⟨[], false, getServerConfigSignature (some cfg2)⟩ := by
      intro m hm
      rcases hseed m (List.mem_cons_of_mem n hm) with ⟨cfg2, hcfg2, hc2⟩
      have hmn : m ≠ n := fun he => hnotin (he ▸ hm)
      exact ⟨cfg2, by rw [(fetchToolsFromServer_config w s n).1]; exact hcfg2,
        by rw [fetchToolsFromServer_frame_cache w s n m hmn]; exact hc2⟩
    rcases ih (fetchToolsFromServer w s n).state hndns hseed2 with ⟨i1, i2⟩
    simp only [fetchAllServers]
    refine ⟨?_, by rw [i2, f3]⟩
    rw [i1, f1, List.map_cons]



theorem mkManager_seed (cd : String) (config : StrMap MCPServerConfig) :
    (mkManager cd config StrMap.empty).config = config ∧
    (mkManager cd config StrMap.empty).cacheDir = cd ∧
    (mkManager cd config StrMap.empty).toolsAggregated = false ∧
    (mkManager cd config StrMap.empty).disk = [] ∧
    ∀ b cfg, config.keys.Nodup → config.get b = some cfg →
      (mkManager cd config StrMap.empty).serverToolsCache.get b =
        some ⟨[], false, getServerConfigSignature (some cfg)⟩ := by
  have hpres := mkManager_fold_pres config
    ⟨config, cd, StrMap.empty, StrMap.empty, StrMap.empty, false, StrMap.empty⟩
  have hempty := mkManager_fold_empty config
    ⟨config, cd, StrMap.empty, StrMap.empty, StrMap.empty, false, StrMap.empty⟩ rfl
  exact ⟨hpres.1, hpres.2.1, hpres.2.2.2.2, hempty.1,
    fun b cfg hnd hget => hempty.2 b cfg hnd hget⟩

theorem listAllTools_fresh (w : World) (cd : String) (config : StrMap MCPServerConfig)
    (hnd : config.keys.Nodup) :
    (listAllTools w (mkManager cd config StrMap.empty)).tools =
      (freshSnapshot w config).map (renameTool (freshSnapshot w config)) := by
  obtain ⟨hcfg0, _hcd0, hagg0, _hdisk0, hseed0⟩ := mkManager_seed cd config
  have hkeys : (mkManager cd config StrMap.empty).config.keys = config.keys := by
    rw [hcfg0]
  have hseed : ∀ m ∈ (mkManager cd config StrMap.empty).config.keys,
      ∃ cfg, (mkManager cd config StrMap.empty).config.get m = some cfg ∧
        (mkManager cd config StrMap.empty).serverToolsCache.get m =
          some ⟨[], false, getServerConfigSignature (some cfg)⟩ := by
    intro m hm
    rw [hkeys] at hm
    rcases Option.isSome_iff_exists.mp (StrMap.get_isSome_of_mem_keys hm) with ⟨cfg, hget⟩
    exact ⟨cfg, by rw [hcfg0]; exact hget, hseed0 m cfg hnd hget⟩
  rcases fetchAllServers_fresh w (mkManager cd config StrMap.empty).config.keys
    (mkManager cd config StrMap.empty) (by rw [hkeys]; exact hnd) hseed with ⟨h1, h2⟩
  simp only [listAllTools]
  rw [h2, hagg0]
  simp only [Bool.false_eq_true, if_false]
  rw [h1, hkeys]
  rfl



theorem renameTool_source (l : List AggregatedTool) (t : AggregatedTool) :
    (renameTool l t).source = t.source := by
  unfold renameTool; split <;> rfl

theorem renameTool_description (l : List AggregatedTool) (t : AggregatedTool) :
    (renameTool l t).description = t.description := by
  unfold renameTool; split <;> rfl

theorem renameTool_inputSchema (l : List AggregatedTool) (t : AggregatedTool) :
    (renameTool l t).inputSchema = t.inputSchema := by
  unfold renameTool; split <;> rfl

theorem renameTool_name_cases (l : List AggregatedTool) (t : AggregatedTool) :
    (renameTool l t).name = t.name ∨
    (renameTool l t).name = t.source ++ "__" ++ t.name := by
  unfold renameTool
  split
  · exact Or.inr rfl
  · exact Or.inl rfl

theorem StrMap.mem_keys_of_get {α : Type} {m : StrMap α} {k : String} {v : α}
    (h : m.get k = some v) : k ∈ m.keys := by
  induction m with
  | nil => exact absurd h (by simp [StrMap.get])
  | cons e t ih =>
    rw [StrMap.get_cons] at h
    by_cases he : e.1 = k
    · exact he ▸ List.mem_map_of_mem Prod.fst (List.mem_cons_self e t)
    · rw [if_neg he] at h
      exact List.mem_cons_of_mem _ (ih h)

theorem mem_freshSnapshot_source {w : World} {config : StrMap MCPServerConfig}
    {u : AggregatedTool} (hu : u ∈ freshSnapshot w config) :
    ∃ n ∈ config.keys, ∃ rt ∈ (w.listToolsResult n).getD [], u = toTool n rt := by
  rcases List.mem_flatten.mp hu with ⟨lst, hlst, hul⟩
  rcases List.mem_map.mp hlst with ⟨n, hn, hfn⟩
  rcases List.mem_map.mp (hfn ▸ hul) with ⟨rt, hrt, hrtu⟩
  exact ⟨n, hn, rt, hrt, hrtu.symm⟩

/-- C5: a backend whose list-tools call fails is marked fetched with an
empty entry list and that empty record is persisted; every later fetch for
it in the same run is answered from memory with no backend retry; and in
the aggregated listing the failed backend contributes nothing while every
healthy backend's tools still appear (possibly under their collision-
prefixed names). -/
theorem failed_backend_degrades_to_empty (w : World) (cd : String)
    (config : StrMap MCPServerConfig) (b : String) (cfg : MCPServerConfig)
    (hnd : config.keys.Nodup)
    (hb : config.get b = some cfg)
    (hw : w.listToolsResult b = none) :
    (fetchToolsFromServer w (mkManager cd config StrMap.empty) b).tools = [] ∧
    (fetchToolsFromServer w (mkManager cd config StrMap.empty) b).trace = [b] ∧
    (fetchToolsFromServer w (mkManager cd config StrMap.empty) b).state.serverToolsCache.get b =
      some ⟨[], true, getServerConfigSignature (some cfg)⟩ ∧
    (fetchToolsFromServer w (mkManager cd config StrMap.empty) b).state.disk.get
        (getCacheFilePath cd b) =
      some ⟨getServerConfigSignature (some cfg), [], w.now⟩ ∧
    fetchToolsFromServer w
        (fetchToolsFromServer w (mkManager cd config StrMap.empty) b).state b =
      ⟨(fetchToolsFromServer w (mkManager cd config StrMap.empty) b).state, [], []⟩ ∧
    (∀ t ∈ (listAllTools w (mkManager cd config StrMap.empty)).tools, t.source ≠ b) ∧
    (∀ c2 cfg2 lc, config.get c2 = some cfg2 → w.listToolsResult c2 = some lc →
      ∀ rt ∈ lc, ∃ t ∈ (listAllTools w (mkManager cd config StrMap.empty)).tools,
        t.source = c2 ∧ t.description = rt.description ∧
        t.inputSchema = rt.inputSchema ∧
        (t.name = rt.name ∨ t.name = c2 ++ "__" ++ rt.name)) := by
  obtain ⟨hcfg0, hcd0, _hagg0, _hdisk0, hseed0⟩ := mkManager_seed cd config
  have hbcfg : (mkManager cd config StrMap.empty).config.get b = some cfg := by
    rw [hcfg0]; exact hb
  have hbseed := hseed0 b cfg hnd hb
  obtain ⟨f1, f2, _f3, _f4, f5⟩ :=
    fetchToolsFromServer_seeded w (mkManager cd config StrMap.empty) b hbcfg hbseed rfl rfl
  rw [hw] at f1 f5
  simp only [Option.getD, List.map_nil] at f1 f5
  have fself := fetchToolsFromServer_cache_self w (mkManager cd config StrMap.empty) b hbcfg
  rw [f1] at fself
  have fcfg := (fetchToolsFromServer_config w (mkManager cd config StrMap.empty) b).1
  refine ⟨f1, f2, fself, ?_, ?_, ?_, ?_⟩
  · rw [hcd0] at f5; exact f5
  · exact fetchToolsFromServer_hit w _ (by rw [fcfg]; exact hbcfg) fself rfl rfl
  · intro t ht
    rw [listAllTools_fresh w cd config hnd] at ht
    rcases List.mem_map.mp ht with ⟨u, hu, hut⟩
    rcases mem_freshSnapshot_source hu with ⟨n, _hn, rt, hrt, hurt⟩
    intro hsrc
    rw [← hut, renameTool_source, hurt] at hsrc
    have : n = b := hsrc
    rw [this, hw] at hrt
    simp at hrt
  · intro c2 cfg2 lc hc2 hwc2 rt hrt
    have hc2keys : c2 ∈ config.keys := StrMap.mem_keys_of_get hc2
    have humem : toTool c2 rt ∈ freshSnapshot w config := by
      rw [freshSnapshot, List.mem_flatten]
      refine ⟨((w.listToolsResult c2).getD []).map (toTool c2), ?_, ?_⟩
      · exact List.mem_map_of_mem _ hc2keys
      · rw [hwc2]
        exact List.mem_map_of_mem _ hrt
    refine ⟨renameTool (freshSnapshot w config) (toTool c2 rt), ?_, ?_, ?_, ?_, ?_⟩
    · rw [listAllTools_fresh w cd config hnd]
      exact List.mem_map_of_mem _ humem
    · rw [renameTool_source]; rfl
    · rw [renameTool_description]; rfl
    · rw [renameTool_inputSchema]; rfl
    · rcases renameTool_name_cases (freshSnapshot w config) (toTool c2 rt) with h | h
      · exact Or.inl h
      · exact Or.inr h



/-- C6: a persisted record is adopted only when its recorded signature
equals the current spec's; on mismatch the durable record is deleted, the
seeded cache is unfetched, and the next access performs a live re-fetch.
In-run signature drift likewise tears everything down: the stale session
is closed (any surviving pooled session carries the current signature),
the stale durable record is gone (any record now on disk carries the
current signature), and the backend is re-fetched live. -/
theorem persisted_cache_trusted_only_on_match :
    (∀ (w : World) (cd : String) (config : StrMap MCPServerConfig)
        (disk : StrMap PersistedServerCacheFile)
        (b : String) (cfg : MCPServerConfig) (rec : PersistedServerCacheFile),
      config.keys.Nodup →
      config.get b = some cfg →
      (∀ e ∈ config, e.1 ≠ b → getCacheFilePath cd e.1 ≠ getCacheFilePath cd b) →
      disk.get (getCacheFilePath cd b) = some rec →
      ((rec.configSignature = getServerConfigSignature (some cfg) →
          (mkManager cd config disk).serverToolsCache.get b =
            some ⟨rec.tools, true, getServerConfigSignature (some cfg)⟩ ∧
          (mkManager cd config disk).disk.get (getCacheFilePath cd b) = some rec ∧
          fetchToolsFromServer w (mkManager cd config disk) b =
            ⟨mkManager cd config disk, rec.tools, []⟩) ∧
       (rec.configSignature ≠ getServerConfigSignature (some cfg) →
          (mkManager cd config disk).serverToolsCache.get b =
            some ⟨[], false, getServerConfigSignature (some cfg)⟩ ∧
          (mkManager cd config disk).disk.get (getCacheFilePath cd b) = none ∧
          (fetchToolsFromServer w (mkManager cd config disk) b).trace = [b])))
  ∧ (∀ (w : World) (s : ManagerState) (b : String) (cfg : MCPServerConfig)
        (c : ServerToolsCache),
      s.config.get b = some cfg →
      s.serverToolsCache.get b = some c →
      c.configSignature ≠ getServerConfigSignature (some cfg) →
      (fetchToolsFromServer w s b).trace = [b] ∧
      (fetchToolsFromServer w s b).tools =
        ((w.listToolsResult b).getD []).map (toTool b) ∧
      (∀ sess, (fetchToolsFromServer w s b).state.clients.get b = some sess →
        sess.configSignature = getServerConfigSignature (some cfg)) ∧
      (∀ r, (fetchToolsFromServer w s b).state.disk.get
          (getCacheFilePath s.cacheDir b) = some r →
        r.configSignature = getServerConfigSignature (some cfg))) := by
  constructor
  · intro w cd config disk b cfg rec hnd hb hp hd
    have hfound :
        ((mkManager cd config disk).serverToolsCache.get b,
          (mkManager cd config disk).disk.get (getCacheFilePath cd b)) =
        (match disk.get (getCacheFilePath cd b) with
         | none => (some ⟨[], false, getServerConfigSignature (some cfg)⟩, none)
         | some rec =>
           if rec.configSignature = getServerConfigSignature (some cfg) then
             (some ⟨rec.tools, true, getServerConfigSignature (some cfg)⟩, some rec)
           else
             (some ⟨[], false, getServerConfigSignature (some cfg)⟩, none)) :=
      mkManager_fold_found config
        ⟨config, cd, StrMap.empty, StrMap.empty, StrMap.empty, false, disk⟩ b cfg hnd hb hp
    rw [hd] at hfound
    simp only [] at hfound
    have hcfgmk : (mkManager cd config disk).config = config :=
      (mkManager_fold_pres config _).1
    constructor
    · intro hsig
      rw [if_pos hsig] at hfound
      rw [Prod.mk.injEq] at hfound
      refine ⟨hfound.1, hfound.2, ?_⟩
      exact fetchToolsFromServer_hit w (mkManager cd config disk)
        (by rw [hcfgmk]; exact hb) hfound.1 rfl rfl
    · intro hsig
      rw [if_neg hsig] at hfound
      rw [Prod.mk.injEq] at hfound
      refine ⟨hfound.1, hfound.2, ?_⟩
      exact (fetchToolsFromServer_seeded w (mkManager cd config disk) b
        (by rw [hcfgmk]; exact hb) hfound.1 rfl rfl).2.1
  · intro w s b cfg c hcfg hc hsig
    obtain ⟨d1, d2, d3, d4⟩ := fetchToolsFromServer_drift w s b hcfg hc hsig
    exact ⟨d2, d1, d3, d4⟩



theorem failed_backend_degrades_to_empty_witness :
    (fetchToolsFromServer failDemoWorld
        (mkManager "/c" failDemoConfig StrMap.empty) "b").tools = [] ∧
    (fetchToolsFromServer failDemoWorld
        (mkManager "/c" failDemoConfig StrMap.empty) "b").trace = ["b"] :=
  ⟨(failed_backend_degrades_to_empty failDemoWorld "/c" failDemoConfig "b"
      ⟨"cmdB", none, none, none⟩ (by decide) (by decide) (by decide)).1,
   (failed_backend_degrades_to_empty failDemoWorld "/c" failDemoConfig "b"
      ⟨"cmdB", none, none, none⟩ (by decide) (by decide) (by decide)).2.1⟩

theorem persisted_cache_trusted_only_on_match_witness :
    (mkManager "/c" driftDemoConfig driftDemoDisk).serverToolsCache.get "b" =
      some ⟨[], false, getServerConfigSignature (some ⟨"cmdB", none, none, none⟩)⟩ ∧
    (mkManager "/c" driftDemoConfig driftDemoDisk).disk.get
      (getCacheFilePath "/c" "b") = none := by
  have app := (persisted_cache_trusted_only_on_match.1 driftDemoWorld "/c"
    driftDemoConfig driftDemoDisk "b" ⟨"cmdB", none, none, none⟩ ⟨"old", [], 0⟩
    (by decide) (by decide) (by decide) (by decide)).2 (by decide)
  exact ⟨app.1, app.2.1⟩

/-! ## Aggregation-index, partial-fetch, and unknown-name lemmas -/

theorem two_le_length_of_mem_ne {α : Type} {l : List α} {x y : α}
    (hx : x ∈ l) (hy : y ∈ l) (hne : x ≠ y) : 2 ≤ l.length := by
  induction l with
  | nil => cases hx
  | cons a t ih =>
    rcases List.mem_cons.mp hx with hxa | hxt
    · rcases List.mem_cons.mp hy with hya | hyt
      · exact absurd (hxa.trans hya.symm) hne
      · have h1 : 0 < t.length := List.length_pos.mpr (List.ne_nil_of_mem hyt)
        simp only [List.length_cons]
        omega
    · have h1 : 0 < t.length := List.length_pos.mpr (List.ne_nil_of_mem hxt)
      simp only [List.length_cons]
      omega

theorem mem_firstOcc {m : String} : ∀ {l : List String}, m ∈ firstOcc l ↔ m ∈ l := by
  intro l
  induction l with
  | nil => simp [firstOcc]
  | cons n ns ih =>
    simp only [firstOcc, List.mem_cons, List.mem_filter]
    constructor
    · rintro (h | ⟨h, _⟩)
      · exact Or.inl h
      · exact Or.inr (ih.mp h)
    · rintro (h | h)
      · exact Or.inl h
      · by_cases hmn : m = n
        · exact Or.inl hmn
        · exact Or.inr ⟨ih.mpr h, by simp [hmn]⟩

theorem mem_groupFor_iff {snap : List AggregatedTool} {n : String} {u : AggregatedTool} :
    u ∈ groupFor snap n ↔ u ∈ snap ∧ u.name = n := by
  simp [groupFor, List.mem_filter]

theorem length_groupFor (snap : List AggregatedTool) (n : String) :
    (groupFor snap n).length = nameCount snap n := rfl

theorem indexInnerFold_get_ne (q : String) :
    ∀ (g : List AggregatedTool) (idx : StrMap String),
      (∀ u ∈ g, u.source ++ "__" ++ u.name ≠ q) →
      (g.foldl (fun idx2 t => idx2.set (t.source ++ "__" ++ t.name) t.source) idx).get q
        = idx.get q := by
  intro g
  induction g with
  | nil => intro idx _; rfl
  | cons u g ih =>
    intro idx h
    simp only [List.foldl_cons]
    rw [ih _ (fun v hv => h v (List.mem_cons_of_mem u hv)),
      StrMap.get_set_ne idx u.source (Ne.symm (h u (List.mem_cons_self u g)))]

theorem indexInnerFold_get_keep (q v : String) :
    ∀ (g : List AggregatedTool) (idx : StrMap String),
      (∀ u ∈ g, u.source ++ "__" ++ u.name = q → u.source = v) →
      idx.get q = some v →
      (g.foldl (fun idx2 t => idx2.set (t.source ++ "__" ++ t.name) t.source) idx).get q
        = some v := by
  intro g
  induction g with
  | nil => intro idx _ hprev; exact hprev
  | cons u g ih =>
    intro idx h hprev
    simp only [List.foldl_cons]
    refine ih _ (fun x hx he => h x (List.mem_cons_of_mem u hx) he) ?_
    by_cases hu : u.source ++ "__" ++ u.name = q
    · rw [← hu, StrMap.get_set_self, h u (List.mem_cons_self u g) hu]
    · rw [StrMap.get_set_ne idx u.source (fun he => hu he.symm)]
      exact hprev

theorem indexInnerFold_get_touch (q v : String) :
    ∀ (g : List AggregatedTool) (idx : StrMap String),
      (∀ u ∈ g, u.source ++ "__" ++ u.name = q → u.source = v) →
      (∃ u ∈ g, u.source ++ "__" ++ u.name = q) →
      (g.foldl (fun idx2 t => idx2.set (t.source ++ "__" ++ t.name) t.source) idx).get q
        = some v := by
  intro g
  induction g with
  | nil => intro idx _ hex; exact absurd hex (by simp)
  | cons u g ih =>
    intro idx h hex
    simp only [List.foldl_cons]
    by_cases hu : u.source ++ "__" ++ u.name = q
    · refine indexInnerFold_get_keep q v g _
        (fun x hx he => h x (List.mem_cons_of_mem u hx) he) ?_
      rw [← hu, StrMap.get_set_self, h u (List.mem_cons_self u g) hu]
    · rcases hex with ⟨u0, hu0m, hu0⟩
      rcases List.mem_cons.mp hu0m with he | hu0g
      · exact absurd (he ▸ hu0) hu
      · exact ih _ (fun x hx he => h x (List.mem_cons_of_mem u hx) he) ⟨u0, hu0g, hu0⟩

theorem indexGroupStep_get_ne (snap : List AggregatedTool) (idx : StrMap String)
    (n q : String)
    (h1 : ∀ t, groupFor snap n = [t] → n ≠ q)
    (h2 : ∀ u ∈ groupFor snap n, 2 ≤ (groupFor snap n).length →
      u.source ++ "__" ++ u.name ≠ q) :
    (indexGroupStep snap idx n).get q = idx.get q := by
  simp only [indexGroupStep]
  cases hg : groupFor snap n with
  | nil => rfl
  | cons t rest =>
    cases rest with
    | nil => exact StrMap.get_set_ne idx t.source (Ne.symm (h1 t hg))
    | cons t2 rest2 =>
      refine indexInnerFold_get_ne q _ idx ?_
      intro u hu
      refine h2 u (hg ▸ hu) ?_
      rw [hg]
      simp only [List.length_cons]
      omega

theorem indexGroupStep_get_keep (snap : List AggregatedTool) (idx : StrMap String)
    (n q v : String)
    (h1 : ∀ t, groupFor snap n = [t] → n = q → t.source = v)
    (h2 : ∀ u ∈ groupFor snap n, 2 ≤ (groupFor snap n).length →
      u.source ++ "__" ++ u.name = q → u.source = v)
    (hprev : idx.get q = some v) :
    (indexGroupStep snap idx n).get q = some v := by
  simp only [indexGroupStep]
  cases hg : groupFor snap n with
  | nil => exact hprev
  | cons t rest =>
    cases rest with
    | nil =>
      by_cases hn : n = q
      · rw [← hn, StrMap.get_set_self, h1 t hg hn]
      · rw [StrMap.get_set_ne idx t.source (fun he => hn he.symm)]
        exact hprev
    | cons t2 rest2 =>
      refine indexInnerFold_get_keep q v _ idx ?_ hprev
      intro u hu he
      refine h2 u (hg ▸ hu) ?_ he
      rw [hg]
      simp only [List.length_cons]
      omega

theorem indexGroupStep_get_touch (snap : List AggregatedTool) (idx : StrMap String)
    (n q v : String)
    (h1 : ∀ t, groupFor snap n = [t] → n = q → t.source = v)
    (h2 : ∀ u ∈ groupFor snap n, 2 ≤ (groupFor snap n).length →
      u.source ++ "__" ++ u.name = q → u.source = v)
    (htouch : (∃ t, groupFor snap n = [t] ∧ n = q) ∨
      (2 ≤ (groupFor snap n).length ∧
        ∃ u ∈ groupFor snap n, u.source ++ "__" ++ u.name = q)) :
    (indexGroupStep snap idx n).get q = some v := by
  simp only [indexGroupStep]
  cases hg : groupFor snap n with
  | nil =>
    rcases htouch with ⟨t, ht, _⟩ | ⟨hlen, _⟩
    · rw [hg] at ht; cases ht
    · rw [hg] at hlen; simp at hlen
  | cons t rest =>
    cases rest with
    | nil =>
      rcases htouch with ⟨t0, ht0, hn⟩ | ⟨hlen, _⟩
      · rw [hg] at ht0
        injection ht0 with ht0
        rw [← hn, StrMap.get_set_self, h1 t hg hn]
      · rw [hg] at hlen; simp at hlen
    | cons t2 rest2 =>
      rcases htouch with ⟨t0, ht0, hn⟩ | ⟨hlen, hex⟩
      · rw [hg] at ht0; cases ht0
      · refine indexInnerFold_get_touch q v _ idx ?_ ?_
        · intro u hu he
          refine h2 u (hg ▸ hu) ?_ he
          rw [hg]; simp only [List.length_cons]; omega
        · rcases hex with ⟨u0, hu0m, hu0⟩
          exact ⟨u0, hg ▸ hu0m, hu0⟩

theorem buildIndexFold_get_keep (snap : List AggregatedTool) (q v : String) :
    ∀ (ns : List String) (idx : StrMap String),
      (∀ n ∈ ns, (∀ t, groupFor snap n = [t] → n = q → t.source = v) ∧
        (∀ u ∈ groupFor snap n, 2 ≤ (groupFor snap n).length →
          u.source ++ "__" ++ u.name = q → u.source = v)) →
      idx.get q = some v →
      (ns.foldl (indexGroupStep snap) idx).get q = some v := by
  intro ns
  induction ns with
  | nil => intro idx _ hprev; exact hprev
  | cons n ns ih =>
    intro idx h hprev
    simp only [List.foldl_cons]
    refine ih _ (fun m hm => h m (List.mem_cons_of_mem n hm)) ?_
    exact indexGroupStep_get_keep snap idx n q v
      (h n (List.mem_cons_self n ns)).1 (h n (List.mem_cons_self n ns)).2 hprev

theorem buildIndexFold_get_ne (snap : List AggregatedTool) (q : String) :
    ∀ (ns : List String) (idx : StrMap String),
      (∀ n ∈ ns, (∀ t, groupFor snap n = [t] → n ≠ q) ∧
        (∀ u ∈ groupFor snap n, 2 ≤ (groupFor snap n).length →
          u.source ++ "__" ++ u.name ≠ q)) →
      (ns.foldl (indexGroupStep snap) idx).get q = idx.get q := by
  intro ns
  induction ns with
  | nil => intro idx _; rfl
  | cons n ns ih =>
    intro idx h
    simp only [List.foldl_cons]
    rw [ih _ (fun m hm => h m (List.mem_cons_of_mem n hm)),
      indexGroupStep_get_ne snap idx n q
        (h n (List.mem_cons_self n ns)).1 (h n (List.mem_cons_self n ns)).2]

theorem buildIndexFold_get_touch (snap : List AggregatedTool) (q v : String) :
    ∀ (ns : List String) (idx : StrMap String),
      (∀ n ∈ ns, (∀ t, groupFor snap n = [t] → n = q → t.source = v) ∧
        (∀ u ∈ groupFor snap n, 2 ≤ (groupFor snap n).length →
          u.source ++ "__" ++ u.name = q → u.source = v)) →
      (∃ n ∈ ns, (∃ t, groupFor snap n = [t] ∧ n = q) ∨
        (2 ≤ (groupFor snap n).length ∧
          ∃ u ∈ groupFor snap n, u.source ++ "__" ++ u.name = q)) →
      (ns.foldl (indexGroupStep snap) idx).get q = some v := by
  intro ns
  induction ns with
  | nil => intro idx _ hex; exact absurd hex (by simp)
  | cons n ns ih =>
    intro idx h hex
    simp only [List.foldl_cons]
    rcases hex with ⟨n0, hn0m, hn0⟩
    rcases List.mem_cons.mp hn0m with he | hn0ns
    · subst he
      refine buildIndexFold_get_keep snap q v ns _
        (fun m hm => h m (List.mem_cons_of_mem n0 hm)) ?_
      exact indexGroupStep_get_touch snap idx n0 q v
        (h n0 (List.mem_cons_self n0 ns)).1 (h n0 (List.mem_cons_self n0 ns)).2 hn0
    · exact ih _ (fun m hm => h m (List.mem_cons_of_mem n hm)) ⟨n0, hn0ns, hn0⟩

theorem exists_entry_of_nameCount_pos {snap : List AggregatedTool} {X : String}
    (h : 1 ≤ nameCount snap X) : ∃ t ∈ snap, t.name = X := by
  unfold nameCount at h
  rcases List.exists_mem_of_length_pos h with ⟨t, ht⟩
  exact ⟨t, (List.mem_filter.mp ht).1, by simpa using (List.mem_filter.mp ht).2⟩

theorem buildIndex_get_none (snap : List AggregatedTool) (q : String)
    (h1 : ∀ t ∈ snap, nameCount snap t.name = 1 → t.name ≠ q)
    (h2 : ∀ u ∈ snap, 2 ≤ nameCount snap u.name → u.source ++ "__" ++ u.name ≠ q) :
    (buildIndex snap).get q = none := by
  unfold buildIndex
  rw [buildIndexFold_get_ne snap q _ StrMap.empty ?_]
  · rfl
  · intro n _hn
    constructor
    · intro t hgt
      have htm : t ∈ snap ∧ t.name = n := mem_groupFor_iff.mp (hgt ▸ List.mem_cons_self t [])
      have hc : nameCount snap t.name = 1 := by
        rw [htm.2, ← length_groupFor, hgt]
        rfl
      exact htm.2 ▸ h1 t htm.1 hc
    · intro u hu hlen
      have hum : u ∈ snap ∧ u.name = n := mem_groupFor_iff.mp hu
      refine h2 u hum.1 ?_
      rw [hum.2, ← length_groupFor]
      exact hlen

theorem buildIndex_get_singleton (snap : List AggregatedTool) {t : AggregatedTool}
    (ht : t ∈ snap) (hcount : nameCount snap t.name = 1)
    (h2 : ∀ u ∈ snap, 2 ≤ nameCount snap u.name →
      u.source ++ "__" ++ u.name ≠ t.name) :
    (buildIndex snap).get t.name = some t.source := by
  unfold buildIndex
  have htg : t ∈ groupFor snap t.name := mem_groupFor_iff.mpr ⟨ht, rfl⟩
  have hlen1 : (groupFor snap t.name).length = 1 := by
    rw [length_groupFor]; exact hcount
  rcases List.length_eq_one.mp hlen1 with ⟨a, ha⟩
  have hat : a = t := by
    rw [ha] at htg
    rcases List.mem_cons.mp htg with he | he
    · exact he.symm
    · cases he
  refine buildIndexFold_get_touch snap t.name t.source _ StrMap.empty ?_ ?_
  · intro n _hn
    constructor
    · intro t0 hgt0 hnq
      subst hnq
      rw [ha] at hgt0
      injection hgt0 with hgt0
      rw [← hgt0, hat]
    · intro u hu hlen he
      have hum := mem_groupFor_iff.mp hu
      exact absurd he (h2 u hum.1 (by rw [hum.2, ← length_groupFor]; exact hlen))
  · refine ⟨t.name, ?_, Or.inl ⟨a, ha, rfl⟩⟩
    exact mem_firstOcc.mpr (List.mem_map_of_mem _ ht)

theorem buildIndex_get_collider (snap : List AggregatedTool) {t : AggregatedTool}
    (ht : t ∈ snap) (hcount : 2 ≤ nameCount snap t.name)
    (h1 : ∀ u ∈ snap, nameCount snap u.name = 1 →
      u.name ≠ t.source ++ "__" ++ t.name)
    (h2 : ∀ u ∈ snap, 2 ≤ nameCount snap u.name →
      u.source ++ "__" ++ u.name = t.source ++ "__" ++ t.name →
      u.source = t.source) :
    (buildIndex snap).get (t.source ++ "__" ++ t.name) = some t.source := by
  unfold buildIndex
  refine buildIndexFold_get_touch snap _ t.source _ StrMap.empty ?_ ?_
  · intro n _hn
    constructor
    · intro t0 hgt0 hnq
      have ht0m : t0 ∈ snap ∧ t0.name = n :=
        mem_groupFor_iff.mp (hgt0 ▸ List.mem_cons_self t0 [])
      have hc : nameCount snap t0.name = 1 := by
        rw [ht0m.2, ← length_groupFor, hgt0]
        rfl
      exact absurd (ht0m.2.trans hnq) (h1 t0 ht0m.1 hc)
    · intro u hu hlen he
      have hum := mem_groupFor_iff.mp hu
      exact h2 u hum.1 (by rw [hum.2, ← length_groupFor]; exact hlen) he
  · refine ⟨t.name, mem_firstOcc.mpr (List.mem_map_of_mem _ ht), Or.inr ⟨?_, t, ?_, rfl⟩⟩
    · rw [length_groupFor]; exact hcount
    · exact mem_groupFor_iff.mpr ⟨ht, rfl⟩

theorem aggregateTools_toolToServer (s : ManagerState) (allTools : List AggregatedTool) :
    (aggregateTools s allTools).toolToServer = buildIndex allTools := rfl

theorem renameTool_name_of_dup {l : List AggregatedTool} {t : AggregatedTool}
    (h : 2 ≤ nameCount l t.name) :
    (renameTool l t).name = t.source ++ "__" ++ t.name := by
  unfold renameTool
  rw [if_pos h]

theorem renameTool_name_of_unique {l : List AggregatedTool} {t : AggregatedTool}
    (h : ¬ 2 ≤ nameCount l t.name) : (renameTool l t).name = t.name := by
  unfold renameTool
  rw [if_neg h]

theorem find_eq_of_mem_unique {α : Type} {p : α → Bool} :
    ∀ {l : List α} {x : α}, x ∈ l → p x = true →
      (∀ y ∈ l, p y = true → y = x) → l.find? p = some x := by
  intro l
  induction l with
  | nil => intro x hx; cases hx
  | cons a t ih =>
    intro x hx hpx huniq
    by_cases hpa : p a = true
    · rw [List.find?_cons_of_pos _ hpa]
      rw [huniq a (List.mem_cons_self a t) hpa]
    · rw [List.find?_cons_of_neg _ hpa]
      rcases List.mem_cons.mp hx with he | hxt
      · exact absurd (he ▸ hpx) hpa
      · exact ih hxt hpx (fun y hy hpy => huniq y (List.mem_cons_of_mem a hy) hpy)

theorem mem_freshSnapshot_of_backend {w : World} {config : StrMap MCPServerConfig}
    {n : String} {u : AggregatedTool} (hn : n ∈ config.keys)
    (hu : u ∈ ((w.listToolsResult n).getD []).map (toTool n)) :
    u ∈ freshSnapshot w config := by
  refine List.mem_flatten.mpr ⟨((w.listToolsResult n).getD []).map (toTool n), ?_, hu⟩
  exact List.mem_map_of_mem _ hn

theorem freshSnapshot_entry_unique {w : World} {config : StrMap MCPServerConfig}
    (hb : ∀ n ∈ config.keys,
      (((w.listToolsResult n).getD []).map RawTool.name).Nodup)
    {t u : AggregatedTool}
    (ht : t ∈ freshSnapshot w config) (hu : u ∈ freshSnapshot w config)
    (hsrc : t.source = u.source) (hname : t.name = u.name) : t = u := by
  rcases mem_freshSnapshot_source ht with ⟨n1, hn1, rt1, hrt1, he1⟩
  rcases mem_freshSnapshot_source hu with ⟨n2, hn2, rt2, hrt2, he2⟩
  have hs1 : t.source = n1 := by rw [he1]; rfl
  have hs2 : u.source = n2 := by rw [he2]; rfl
  have hnn : n1 = n2 := by rw [← hs1, ← hs2, hsrc]
  subst hnn
  have hname1 : t.name = rt1.name := by rw [he1]; rfl
  have hname2 : u.name = rt2.name := by rw [he2]; rfl
  have hrteq : rt1 = rt2 :=
    List.inj_on_of_nodup_map (hb n1 hn1) hrt1 hrt2
      (by rw [← hname1, ← hname2, hname])
  rw [he1, he2, hrteq]

theorem fetchAllServers_psf (w : World) :
    ∀ (names : List String) (s : ManagerState),
      names.Nodup →
      (∀ m ∈ names, seededOrFetched w s m) →
      (fetchAllServers w s names).2.1 =
        names.map (fun n => ((w.listToolsResult n).getD []).map (toTool n)) ∧
      (fetchAllServers w s names).1.toolsAggregated = s.toolsAggregated := by
  intro names
  induction names with
  | nil => intro s _ _; exact ⟨rfl, rfl⟩
  | cons n ns ih =>
    intro s hnd hseed
    rcases List.nodup_cons.mp hnd with ⟨hnotin, hndns⟩
    rcases hseed n (List.mem_cons_self n ns) with ⟨cfg, hcfg, hc | hc⟩
    · rcases fetchToolsFromServer_seeded w s n hcfg hc rfl rfl with ⟨f1, _f2, f3, _f4, _f5⟩
      have hseed2 : ∀ m ∈ ns, seededOrFetched w (fetchToolsFromServer w s n).state m := by
        intro m hm
        rcases hseed m (List.mem_cons_of_mem n hm) with ⟨cfg2, hcfg2, hc2⟩
        have hmn : m ≠ n := fun he => hnotin (he ▸ hm)
        refine ⟨cfg2, ?_, ?_⟩
        · rw [(fetchToolsFromServer_config w s n).1]; exact hcfg2
        · rw [fetchToolsFromServer_frame_cache w s n m hmn]; exact hc2
      rcases ih _ hndns hseed2 with ⟨i1, i2⟩
      simp only [fetchAllServers]
      exact ⟨by rw [i1, f1, List.map_cons], by rw [i2, f3]⟩
    · have hfetch := fetchToolsFromServer_hit w s hcfg hc rfl rfl
      rcases ih s hndns (fun m hm => hseed m (List.mem_cons_of_mem n hm)) with ⟨i1, i2⟩
      simp only [fetchAllServers, hfetch]
      exact ⟨by rw [i1, List.map_cons], i2⟩

theorem listAllTools_from_partial (w : World) (s : ManagerState)
    (hnd : s.config.keys.Nodup)
    (hagg : s.toolsAggregated = false)
    (hpf : ∀ m ∈ s.config.keys, seededOrFetched w s m) :
    (listAllTools w s).tools =
      (freshSnapshot w s.config).map (renameTool (freshSnapshot w s.config)) ∧
    (listAllTools w s).state.config = s.config ∧
    (listAllTools w s).state.toolsAggregated = true ∧
    (listAllTools w s).state.toolToServer = buildIndex (freshSnapshot w s.config) ∧
    (∀ m cfg, s.config.get m = some cfg →
      (listAllTools w s).state.serverToolsCache.get m =
        some ⟨(((w.listToolsResult m).getD []).map (toTool m)).map
            (renameTool (freshSnapshot w s.config)), true,
          getServerConfigSignature (some cfg)⟩) := by
  have hcfgSome : ∀ m ∈ s.config.keys, (s.config.get m).isSome := by
    intro m hm
    rcases hpf m hm with ⟨cfg, hcfg, _⟩
    exact Option.isSome_iff_exists.mpr ⟨cfg, hcfg⟩
  obtain ⟨p1, _p2, p3, p4, _p5⟩ := fetchAllServers_post w s.config.keys s hnd hcfgSome
  obtain ⟨f1, f2⟩ := fetchAllServers_psf w s.config.keys s hnd hpf
  have hpt : ∀ m ∈ s.config.keys,
      cacheToolsAt (fetchAllServers w s s.config.keys).1 m =
        ((w.listToolsResult m).getD []).map (toTool m) :=
    List.map_inj_left.mp (p4.symm.trans f1)
  have hflat : (fetchAllServers w s s.config.keys).2.1.flatten = freshSnapshot w s.config := by
    rw [f1]; rfl
  have hagg2 : (fetchAllServers w s s.config.keys).1.toolsAggregated = false := by
    rw [f2, hagg]
  have hfirst : listAllTools w s =
      ⟨aggregateTools (fetchAllServers w s s.config.keys).1
          (fetchAllServers w s s.config.keys).2.1.flatten,
        ((fetchAllServers w s s.config.keys).2.1.flatten).map
          (renameTool ((fetchAllServers w s s.config.keys).2.1.flatten)),
        (fetchAllServers w s s.config.keys).2.2⟩ := by
    simp only [listAllTools, hagg2, Bool.false_eq_true, if_false]
  rw [hfirst]
  refine ⟨by rw [hflat], by rw [aggregateTools_config, p1], aggregateTools_aggregated _ _,
    by rw [aggregateTools_toolToServer, hflat], ?_⟩
  intro m cfg hcfg
  have hm : m ∈ s.config.keys := StrMap.mem_keys_of_get hcfg
  have hcont : (((fetchAllServers w s s.config.keys).1.config.keys).contains m) = true := by
    rw [p1]; exact List.elem_eq_true_of_mem hm
  rcases p3 m hm with ⟨cfg2, c2, hcfg2, hc2, hf2, hsig2⟩
  have hcfg22 : cfg2 = cfg := by
    rw [p1] at hcfg2
    rw [hcfg2] at hcfg
    injection hcfg
  have htools : c2.tools = ((w.listToolsResult m).getD []).map (toTool m) := by
    have h := hpt m hm
    rw [cacheToolsAt, hc2] at h
    simpa using h
  rw [aggregateTools_cache_get, hc2, hcont]
  simp only [Option.map_some, if_true]
  rcases c2 with ⟨c2t, c2f, c2s⟩
  simp only at htools hf2 hsig2
  rw [htools, hf2, hsig2, hcfg22, hflat]
  rfl

theorem strFalsy_none : strFalsy none = true := rfl

theorem strFalsy_some_empty : strFalsy (some "") = true := by decide

theorem strFalsy_some_ne {a : String} (h : a ≠ "") : strFalsy (some a) = false := by
  simp [strFalsy, h]

theorem jsSplitDunder_empty_prefix (X : String) :
    jsSplitDunder ("" ++ "__" ++ X) = "" :: jsSplitDunder X := rfl

/-- C1 (amended): after one aggregation pass from a fresh run whose
snapshot carries a name collision on `X` — provided per-backend native
names are duplicate-free and no `source__name` composite of a colliding
entry coincides with a raw snapshot name or with a different colliding
entry's composite — every colliding entry named `X` appears renamed in
place to `source__X`, is indexed under that new name to its own backend,
and is retrievable through `getToolDetails` under the prefixed name; the
bare name `X` is neither indexed, nor listed, nor retrievable; and names
owned by a single backend are indexed unchanged. -/
theorem collision_rename_and_retrieval (w : World) (cd : String)
    (config : StrMap MCPServerConfig) (X : String)
    (hnd : config.keys.Nodup)
    (hb : ∀ n ∈ config.keys,
      (((w.listToolsResult n).getD []).map RawTool.name).Nodup)
    (hcomp1 : ∀ t ∈ freshSnapshot w config,
      2 ≤ nameCount (freshSnapshot w config) t.name →
      ∀ u ∈ freshSnapshot w config, t.source ++ "__" ++ t.name ≠ u.name)
    (hcomp2 : ∀ t ∈ freshSnapshot w config, ∀ u ∈ freshSnapshot w config,
      2 ≤ nameCount (freshSnapshot w config) t.name →
      2 ≤ nameCount (freshSnapshot w config) u.name →
      t.source ++ "__" ++ t.name = u.source ++ "__" ++ u.name →
      t.source = u.source ∧ t.name = u.name)
    (hX : 2 ≤ nameCount (freshSnapshot w config) X) :
    (∀ t ∈ freshSnapshot w config, t.name = X →
      ({ t with name := t.source ++ "__" ++ X } ∈
          (listAllTools w (mkManager cd config StrMap.empty)).tools ∧
        (listAllTools w (mkManager cd config StrMap.empty)).state.toolToServer.get
          (t.source ++ "__" ++ X) = some t.source ∧
        (getToolDetails w (listAllTools w (mkManager cd config StrMap.empty)).state
          (t.source ++ "__" ++ X)).2 =
          some ⟨t.source ++ "__" ++ X, t.description, t.inputSchema, t.source⟩)) ∧
    ((listAllTools w (mkManager cd config StrMap.empty)).state.toolToServer.get X =
        none ∧
      (∀ y ∈ (listAllTools w (mkManager cd config StrMap.empty)).tools, y.name ≠ X) ∧
      (getToolDetails w (listAllTools w (mkManager cd config StrMap.empty)).state
        X).2 = none) ∧
    (∀ t ∈ freshSnapshot w config, nameCount (freshSnapshot w config) t.name = 1 →
      (listAllTools w (mkManager cd config StrMap.empty)).state.toolToServer.get
        t.name = some t.source) := by
  obtain ⟨hcfg0, _hcd0, hagg0, _hdisk0, hseed0⟩ := mkManager_seed cd config
  set s0 := mkManager cd config StrMap.empty with hs0
  have hkeys0 : s0.config.keys = config.keys := by rw [hcfg0]
  have hpf0 : ∀ m ∈ s0.config.keys, seededOrFetched w s0 m := by
    intro m hm
    rw [hkeys0] at hm
    rcases Option.isSome_iff_exists.mp (StrMap.get_isSome_of_mem_keys hm) with ⟨cfg, hget⟩
    exact ⟨cfg, by rw [hcfg0]; exact hget, Or.inl (hseed0 m cfg hnd hget)⟩
  obtain ⟨la1, la2, la3, la4, la5⟩ :=
    listAllTools_from_partial w s0 (by rw [hkeys0]; exact hnd) hagg0 hpf0
  rw [hcfg0] at la1 la2 la4 la5
  obtain ⟨tX, htXmem, htXname⟩ := exists_entry_of_nameCount_pos (le_trans one_le_two hX)
  have hidxX : (buildIndex (freshSnapshot w config)).get X = none := by
    refine buildIndex_get_none _ X ?_ ?_
    · intro t htm hc1 hname
      rw [hname] at hc1
      omega
    · intro u hum hcu
      exact fun he => hcomp1 u hum hcu tX htXmem (he.trans htXname.symm)
  have hnoX : ∀ y ∈ (freshSnapshot w config).map (renameTool (freshSnapshot w config)),
      y.name ≠ X := by
    intro y hy
    rcases List.mem_map.mp hy with ⟨u, hum, hey⟩
    subst hey
    by_cases hcu : 2 ≤ nameCount (freshSnapshot w config) u.name
    · rw [renameTool_name_of_dup hcu]
      exact fun he => hcomp1 u hum hcu tX htXmem (he.trans htXname.symm)
    · rw [renameTool_name_of_unique hcu]
      intro he
      rw [he] at hcu
      exact hcu hX
  have hlaKeys : (listAllTools w s0).state.config.keys = config.keys := by rw [la2]
  have hhitLa : ∀ m ∈ (listAllTools w s0).state.config.keys,
      hitAt (listAllTools w s0).state m := by
    intro m hm
    rw [hlaKeys] at hm
    rcases Option.isSome_iff_exists.mp (StrMap.get_isSome_of_mem_keys hm) with ⟨cfg, hget⟩
    exact ⟨cfg, _, by rw [la2]; exact hget, la5 m cfg hget, rfl, rfl⟩
  have hla2 := listAllTools_all_hit w (listAllTools w s0).state la3 hhitLa
  have hla2tools : (listAllTools w (listAllTools w s0).state).tools =
      (freshSnapshot w config).map (renameTool (freshSnapshot w config)) := by
    rw [hla2]
    have hptLa : ∀ m ∈ (listAllTools w s0).state.config.keys,
        cacheToolsAt (listAllTools w s0).state m =
          (((w.listToolsResult m).getD []).map (toTool m)).map
            (renameTool (freshSnapshot w config)) := by
      intro m hm
      rw [hlaKeys] at hm
      rcases Option.isSome_iff_exists.mp (StrMap.get_isSome_of_mem_keys hm) with ⟨cfg, hget⟩
      rw [cacheToolsAt, la5 m cfg hget]
      rfl
    show ((listAllTools w s0).state.config.keys.map
        (fun m => cacheToolsAt (listAllTools w s0).state m)).flatten = _
    rw [List.map_congr_left hptLa, hlaKeys]
    have hmm : config.keys.map (fun m =>
        (((w.listToolsResult m).getD []).map (toTool m)).map
          (renameTool (freshSnapshot w config))) =
        (config.keys.map (fun m => ((w.listToolsResult m).getD []).map (toTool m))).map
          (List.map (renameTool (freshSnapshot w config))) := by
      rw [List.map_map]
      rfl
    rw [hmm, ← List.map_flatten]
    rfl
  have hfindX : ((freshSnapshot w config).map
      (renameTool (freshSnapshot w config))).find? (fun u => u.name = X) = none := by
    refine List.find?_eq_none.mpr ?_
    intro y hy
    simp only [decide_eq_true_eq]
    exact hnoX y hy
  have hfind2 : (listAllTools w (listAllTools w s0).state).tools.find?
      (fun u => u.name = X) = none := by
    rw [hla2tools]
    exact hfindX
  refine ⟨?_, ⟨?_, ?_, ?_⟩, ?_⟩
  · -- colliding entries: renamed, indexed, retrievable
    intro t htm htname
    have hct : 2 ≤ nameCount (freshSnapshot w config) t.name := by
      rw [htname]; exact hX
    have hidxT : (listAllTools w s0).state.toolToServer.get
        (t.source ++ "__" ++ X) = some t.source := by
      rw [la4, ← htname]
      refine buildIndex_get_collider _ htm hct ?_ ?_
      · intro u hum hcu1
        exact fun he => (hcomp1 t htm hct u hum) he.symm
      · intro u hum hcu2 he
        exact (hcomp2 u hum t htm hcu2 hct he).1
    have hren : renameTool (freshSnapshot w config) t =
        { t with name := t.source ++ "__" ++ t.name } := by
      unfold renameTool
      rw [if_pos hct]
    rw [htname] at hren
    refine ⟨?_, hidxT, ?_⟩
    · rw [la1, ← hren]
      exact List.mem_map_of_mem _ htm
    · rcases mem_freshSnapshot_source htm with ⟨nn, hnn, rt, hrt, hte⟩
      have hsrc : t.source = nn := by rw [hte]; rfl
      have hsrcKeys : t.source ∈ config.keys := hsrc ▸ hnn
      rcases Option.isSome_iff_exists.mp (StrMap.get_isSome_of_mem_keys hsrcKeys) with
        ⟨cfgs, hgets⟩
      have hgetsLa : (listAllTools w s0).state.config.get t.source = some cfgs := by
        rw [la2]; exact hgets
      have hcacheS := la5 t.source cfgs hgets
      have hfetchS := fetchToolsFromServer_hit w (listAllTools w s0).state hgetsLa
        hcacheS rfl rfl
      have htf : t ∈ ((w.listToolsResult t.source).getD []).map (toTool t.source) := by
        rw [hsrc, hte]
        exact List.mem_map_of_mem _ hrt
      have huniqAll : ∀ y ∈ (freshSnapshot w config).map
          (renameTool (freshSnapshot w config)),
          (fun u => decide (u.name = t.source ++ "__" ++ X)) y = true →
          y = renameTool (freshSnapshot w config) t := by
        intro y hy hpy
        rcases List.mem_map.mp hy with ⟨u, humSnap, hey⟩
        subst hey
        simp only [decide_eq_true_eq] at hpy
        by_cases hcu : 2 ≤ nameCount (freshSnapshot w config) u.name
        · rw [renameTool_name_of_dup hcu, ← htname] at hpy
          have heq := hcomp2 u humSnap t htm hcu hct hpy
          rw [freshSnapshot_entry_unique hb humSnap htm heq.1 heq.2]
        · rw [renameTool_name_of_unique hcu, ← htname] at hpy
          exact absurd hpy.symm (hcomp1 t htm hct u humSnap)
      have hfindT : ((((w.listToolsResult t.source).getD []).map
          (toTool t.source)).map (renameTool (freshSnapshot w config))).find?
            (fun u => u.name = t.source ++ "__" ++ X) =
          some (renameTool (freshSnapshot w config) t) := by
        refine find_eq_of_mem_unique (List.mem_map_of_mem _ htf) ?_ ?_
        · simp only [decide_eq_true_eq]
          rw [hren]
        · intro y hy hpy
          refine huniqAll y ?_ hpy
          rcases List.mem_map.mp hy with ⟨u, hum0, hey⟩
          exact hey ▸ List.mem_map_of_mem _
            (mem_freshSnapshot_of_backend hsrcKeys hum0)
      by_cases hsrcE : t.source = ""
      · -- empty backend name: the index hit is falsy, the guess also
        -- yields the empty (falsy) name, and the full-listing fallback
        -- still finds the renamed entry
        have hfindAll : (listAllTools w (listAllTools w s0).state).tools.find?
            (fun u => u.name = t.source ++ "__" ++ X) =
            some (renameTool (freshSnapshot w config) t) := by
          rw [hla2tools]
          refine find_eq_of_mem_unique (List.mem_map_of_mem _ htm) ?_ huniqAll
          simp only [decide_eq_true_eq]
          rw [hren]
        have hfal : strFalsy (some t.source) = true := by
          rw [hsrcE]
          exact strFalsy_some_empty
        have hhead : (jsSplitDunder (t.source ++ "__" ++ X)).headD "" = "" := by
          rw [hsrcE, jsSplitDunder_empty_prefix]
          rfl
        have hfalHead : strFalsy (some ((jsSplitDunder
            (t.source ++ "__" ++ X)).headD "")) = true := by
          rw [hhead]
          exact strFalsy_some_empty
        simp only [getToolDetails, hidxT, hfal, Bool.not_true, Bool.false_eq_true,
          if_false]
        by_cases hp : 2 ≤ (jsSplitDunder (t.source ++ "__" ++ X)).length
        · rw [if_pos hp]
          simp only [hfalHead, Bool.not_true, Bool.false_and, Bool.false_eq_true,
            if_false, hfindAll]
          rw [hren]
        · rw [if_neg hp]
          simp only [hfal, Bool.not_true, Bool.false_and, Bool.false_eq_true,
            if_false, hfindAll]
          rw [hren]
      · simp only [getToolDetails, hidxT, strFalsy_some_ne hsrcE, Bool.not_false,
          if_true, Option.getD_some, hgetsLa, Option.isSome_some, Bool.and_self,
          hfetchS, hfindT]
        rw [hren]
  · -- bare X not indexed
    rw [la4]
    exact hidxX
  · -- no final entry named X
    intro y hy
    rw [la1] at hy
    exact hnoX y hy
  · -- getToolDetails on bare X
    have hidxXla : (listAllTools w s0).state.toolToServer.get X = none := by
      rw [la4]
      exact hidxX
    simp only [getToolDetails, hidxXla, strFalsy_none, Bool.not_true,
      Bool.false_eq_true, if_false]
    by_cases hp : 2 ≤ (jsSplitDunder X).length
    · rw [if_pos hp]
      by_cases hhE : (jsSplitDunder X).headD "" = ""
      · have hfalH : strFalsy (some ((jsSplitDunder X).headD "")) = true := by
          rw [hhE]
          exact strFalsy_some_empty
        simp only [hfalH, Bool.not_true, Bool.false_and, Bool.false_eq_true,
          if_false, hfind2]
      · by_cases hs : ((listAllTools w s0).state.config.get
            ((jsSplitDunder X).headD "")).isSome = true
        · rcases Option.isSome_iff_exists.mp hs with ⟨cfgg, hgetg⟩
          have hgetg2 : config.get ((jsSplitDunder X).headD "") = some cfgg := by
            rw [← la2]
            exact hgetg
          have hgKeys : (jsSplitDunder X).headD "" ∈ config.keys :=
            StrMap.mem_keys_of_get hgetg2
          have hcacheG := la5 _ cfgg hgetg2
          have hfetchG := fetchToolsFromServer_hit w (listAllTools w s0).state hgetg
            hcacheG rfl rfl
          have hfindG : ((((w.listToolsResult ((jsSplitDunder X).headD "")).getD
              []).map (toTool ((jsSplitDunder X).headD ""))).map
                (renameTool (freshSnapshot w config))).find? (fun u => u.name = X) =
              none := by
            refine List.find?_eq_none.mpr ?_
            intro y hy
            simp only [decide_eq_true_eq]
            refine hnoX y ?_
            rcases List.mem_map.mp hy with ⟨u, hum0, hey⟩
            exact hey ▸ List.mem_map_of_mem _ (mem_freshSnapshot_of_backend hgKeys hum0)
          simp only [strFalsy_some_ne hhE, Bool.not_false, Option.getD_some,
            Bool.true_and, hs, if_true, hfetchG, hfindG, hfind2]
        · rw [Bool.not_eq_true] at hs
          simp only [strFalsy_some_ne hhE, Bool.not_false, Option.getD_some,
            Bool.true_and, hs, Bool.false_eq_true, if_false, hfind2]
    · rw [if_neg hp]
      simp only [strFalsy_none, Bool.not_true, Bool.false_and, Bool.false_eq_true,
        if_false, hfind2]
  · -- names owned by a single backend
    intro t htm hc1
    rw [la4]
    refine buildIndex_get_singleton _ htm hc1 ?_
    intro u hum hcu
    exact hcomp1 u hum hcu t htm

/-- C7: for names unknown to the system, `getMCPDetails` on an
unconfigured backend name returns the state unchanged with `none`;
`getToolDetails` on a name that is no backend's native name and no
post-aggregation public name returns `none`; and the `execute_tool`
handler on a name missing from the index and not of the form
`configuredBackend__rest` returns a structured `isError` result whose
text is prefixed `Error executing tool: `. -/
theorem unknown_names_not_found {α : Type} (w : World) (cd : String)
    (config : StrMap MCPServerConfig) (mcpName toolName : String) (args : α)
    (hnd : config.keys.Nodup)
    (hm : config.get mcpName = none)
    (h1 : ∀ t ∈ freshSnapshot w config, t.name ≠ toolName)
    (h2 : ∀ t ∈ freshSnapshot w config,
      (renameTool (freshSnapshot w config) t).name ≠ toolName)
    (h3 : (jsSplitDunder toolName).length < 2 ∨
      config.get ((jsSplitDunder toolName).headD "") = none) :
    getMCPDetails w (mkManager cd config StrMap.empty) mcpName =
      (mkManager cd config StrMap.empty, none) ∧
    (getToolDetails w (mkManager cd config StrMap.empty) toolName).2 = none ∧
    ∃ e, (executeToolHandler w (mkManager cd config StrMap.empty) toolName args).2 =
      HandlerResult.errorResult ("Error executing tool: " ++ e) := by
  obtain ⟨hcfg0, _hcd0, hagg0, _hdisk0, hseed0⟩ := mkManager_seed cd config
  set s0 := mkManager cd config StrMap.empty with hs0
  have hidx0 : s0.toolToServer = StrMap.empty :=
    (mkManager_fold_pres config
      ⟨config, cd, StrMap.empty, StrMap.empty, StrMap.empty, false,
        StrMap.empty⟩).2.2.2.1
  have hgetIdx : s0.toolToServer.get toolName = none := by rw [hidx0]; rfl
  have hkeys0 : s0.config.keys = config.keys := by rw [hcfg0]
  have hpf0 : ∀ m ∈ s0.config.keys, seededOrFetched w s0 m := by
    intro m hm2
    rw [hkeys0] at hm2
    rcases Option.isSome_iff_exists.mp (StrMap.get_isSome_of_mem_keys hm2) with
      ⟨cfg, hget⟩
    exact ⟨cfg, by rw [hcfg0]; exact hget, Or.inl (hseed0 m cfg hnd hget)⟩
  obtain ⟨la1, _la2, _la3, la4, _la5⟩ :=
    listAllTools_from_partial w s0 (by rw [hkeys0]; exact hnd) hagg0 hpf0
  rw [hcfg0] at la1 la4
  have hm0 : s0.config.get mcpName = none := by rw [hcfg0]; exact hm
  refine ⟨by simp only [getMCPDetails, hm0], ?_, ?_⟩
  · -- getToolDetails on an unowned public name
    have hfind0 : (listAllTools w s0).tools.find? (fun u => u.name = toolName) =
        none := by
      rw [la1]
      refine List.find?_eq_none.mpr ?_
      intro y hy
      simp only [decide_eq_true_eq]
      rcases List.mem_map.mp hy with ⟨u, hum, hey⟩
      exact hey ▸ h2 u hum
    simp only [getToolDetails, hgetIdx, strFalsy_none, Bool.not_true,
      Bool.false_eq_true, if_false]
    by_cases hp : 2 ≤ (jsSplitDunder toolName).length
    · rw [if_pos hp]
      by_cases hhE : (jsSplitDunder toolName).headD "" = ""
      · have hfalH : strFalsy (some ((jsSplitDunder toolName).headD "")) =
            true := by
          rw [hhE]
          exact strFalsy_some_empty
        simp only [hfalH, Bool.not_true, Bool.false_and, Bool.false_eq_true,
          if_false, hfind0]
      · by_cases hsome : (s0.config.get
            ((jsSplitDunder toolName).headD "")).isSome = true
        · rcases Option.isSome_iff_exists.mp hsome with ⟨cfgg, hgetg⟩
          have hgetg2 : config.get ((jsSplitDunder toolName).headD "") = some cfgg := by
            rw [← hcfg0]
            exact hgetg
          have hseedg := hseed0 _ cfgg hnd hgetg2
          obtain ⟨g1, _g2, g3, _g4, _g5⟩ :=
            fetchToolsFromServer_seeded w s0 _ hgetg hseedg rfl rfl
          have hgKeys : (jsSplitDunder toolName).headD "" ∈ config.keys :=
            StrMap.mem_keys_of_get hgetg2
          have hfindr : (fetchToolsFromServer w s0
              ((jsSplitDunder toolName).headD "")).tools.find?
                (fun u => u.name = toolName) = none := by
            rw [g1]
            refine List.find?_eq_none.mpr ?_
            intro y hy
            simp only [decide_eq_true_eq]
            exact h1 y (mem_freshSnapshot_of_backend hgKeys hy)
          have hrconf : (fetchToolsFromServer w s0
              ((jsSplitDunder toolName).headD "")).state.config = config := by
            rw [(fetchToolsFromServer_config w s0 _).1, hcfg0]
          have hragg : (fetchToolsFromServer w s0
              ((jsSplitDunder toolName).headD "")).state.toolsAggregated = false := by
            rw [g3, hagg0]
          have hpfr : ∀ m ∈ (fetchToolsFromServer w s0
              ((jsSplitDunder toolName).headD "")).state.config.keys,
              seededOrFetched w (fetchToolsFromServer w s0
                ((jsSplitDunder toolName).headD "")).state m := by
            intro m hm2
            rw [hrconf] at hm2
            rcases Option.isSome_iff_exists.mp (StrMap.get_isSome_of_mem_keys hm2) with
              ⟨cfgm, hgetm⟩
            refine ⟨cfgm, by rw [hrconf]; exact hgetm, ?_⟩
            by_cases hmg : m = (jsSplitDunder toolName).headD ""
            · subst hmg
              have hcself := fetchToolsFromServer_cache_self w s0 _ hgetg
              rw [g1] at hcself
              have hcfgm : cfgm = cfgg := by
                rw [hgetm] at hgetg2
                injection hgetg2
              rw [hcfgm]
              exact Or.inr hcself
            · rw [fetchToolsFromServer_frame_cache w s0 _ m hmg]
              exact Or.inl (hseed0 m cfgm hnd hgetm)
          obtain ⟨lb1, _lb2, _lb3, _lb4, _lb5⟩ :=
            listAllTools_from_partial w (fetchToolsFromServer w s0
              ((jsSplitDunder toolName).headD "")).state
              (by rw [hrconf]; exact hnd) hragg hpfr
          rw [hrconf] at lb1
          have hfindb : (listAllTools w (fetchToolsFromServer w s0
              ((jsSplitDunder toolName).headD "")).state).tools.find?
                (fun u => u.name = toolName) = none := by
            rw [lb1]
            refine List.find?_eq_none.mpr ?_
            intro y hy
            simp only [decide_eq_true_eq]
            rcases List.mem_map.mp hy with ⟨u, hum, hey⟩
            exact hey ▸ h2 u hum
          simp only [strFalsy_some_ne hhE, Bool.not_false, Option.getD_some,
            Bool.true_and, hsome, if_true, hfindr, hfindb]
        · rw [Bool.not_eq_true] at hsome
          simp only [strFalsy_some_ne hhE, Bool.not_false, Option.getD_some,
            Bool.true_and, hsome, Bool.false_eq_true, if_false, hfind0]
    · rw [if_neg hp]
      simp only [strFalsy_none, Bool.not_true, Bool.false_and, Bool.false_eq_true,
        if_false, hfind0]
  · -- execute_tool on an unresolvable name
    have hidxla : (listAllTools w s0).state.toolToServer.get toolName = none := by
      rw [la4]
      refine buildIndex_get_none _ toolName ?_ ?_
      · intro t htm hc1
        have hh := h2 t htm
        rw [renameTool_name_of_unique
          (by omega : ¬ 2 ≤ nameCount (freshSnapshot w config) t.name)] at hh
        exact hh
      · intro u hum hcu
        have hh := h2 u hum
        rw [renameTool_name_of_dup hcu] at hh
        exact hh
    by_cases hp2 : 2 ≤ (jsSplitDunder toolName).length
    · have hnone : s0.config.get ((jsSplitDunder toolName).headD "") = none := by
        rcases h3 with h3 | h3
        · omega
        · rw [hcfg0]
          exact h3
      by_cases hhE : (jsSplitDunder toolName).headD "" = ""
      · -- the guessed empty name is falsy, so the code retries via the
        -- full listing and then reports the tool as not found
        refine ⟨"Tool not found: " ++ toolName, ?_⟩
        have hfalH : strFalsy (some ((jsSplitDunder toolName).headD "")) =
            true := by
          rw [hhE]
          exact strFalsy_some_empty
        have hex : executeTool w s0 toolName args none =
            ((listAllTools w s0).state,
              Except.error ("Tool not found: " ++ toolName)) := by
          simp only [executeTool, strFalsy_none, Bool.not_true, Bool.false_eq_true,
            if_false, hgetIdx]
          rw [if_pos hp2]
          simp only [hfalH, hidxla, strFalsy_none, Bool.not_true,
            Bool.false_eq_true, if_false]
        simp only [executeToolHandler, hex]
      · refine ⟨"Server not found: " ++ ((jsSplitDunder toolName).headD ""), ?_⟩
        have hex : executeTool w s0 toolName args none =
            (s0, Except.error
              ("Server not found: " ++ ((jsSplitDunder toolName).headD ""))) := by
          simp only [executeTool, strFalsy_none, Bool.not_true, Bool.false_eq_true,
            if_false, hgetIdx]
          rw [if_pos hp2]
          simp only [strFalsy_some_ne hhE, Bool.not_false, if_true,
            Option.getD_some]
          simp only [finishExecute, hnone]
        simp only [executeToolHandler, hex]
    · refine ⟨"Tool not found: " ++ toolName, ?_⟩
      have hex : executeTool w s0 toolName args none =
          ((listAllTools w s0).state,
            Except.error ("Tool not found: " ++ toolName)) := by
        simp only [executeTool, strFalsy_none, Bool.not_true, Bool.false_eq_true,
          if_false, hgetIdx]
        rw [if_neg hp2]
        simp only [strFalsy_none, Bool.not_true, Bool.false_eq_true, if_false,
          hidxla]
      simp only [executeToolHandler, hex]

/-- C1 counterexample: with backends `a` and `b` colliding on native name
`x` and backend `c` natively exposing the literal name `a__x`, backend
`a`'s entry `x` is a colliding entry of the snapshot, yet after one
aggregation pass the name index maps its prefixed name `a__x` to backend
`c`, and `getToolDetails` under that prefixed name returns backend `c`'s
entry — so a renamed colliding entry need not be retrievable under its
prefixed name. -/
theorem collision_rename_counterexample :
    2 ≤ nameCount (freshSnapshot composedCollisionWorld composedCollisionConfig)
      "x" ∧
    (⟨"x", none, none, "a"⟩ : AggregatedTool) ∈
      freshSnapshot composedCollisionWorld composedCollisionConfig ∧
    composedCollisionState.toolToServer.get ("a" ++ "__" ++ "x") = some "c" ∧
    (getToolDetails composedCollisionWorld composedCollisionState
      ("a" ++ "__" ++ "x")).2 = some ⟨"a__x", none, none, "c"⟩ := by decide

/-- Closed instance of the C1 theorem at a concrete two-backend
collision. -/
theorem collision_rename_and_retrieval_witness :
    ((⟨"x", none, none, "a"⟩ : AggregatedTool) ∈
        freshSnapshot plainCollisionWorld plainCollisionConfig ∧
      2 ≤ nameCount (freshSnapshot plainCollisionWorld plainCollisionConfig)
        "x") ∧
    ({ name := "a" ++ "__" ++ "x", description := none, inputSchema := none,
        source := "a" } : AggregatedTool) ∈
      (listAllTools plainCollisionWorld
        (mkManager "/c" plainCollisionConfig StrMap.empty)).tools ∧
    (listAllTools plainCollisionWorld
      (mkManager "/c" plainCollisionConfig StrMap.empty)).state.toolToServer.get
        ("a" ++ "__" ++ "x") = some "a" ∧
    (getToolDetails plainCollisionWorld
      (listAllTools plainCollisionWorld
        (mkManager "/c" plainCollisionConfig StrMap.empty)).state
      ("a" ++ "__" ++ "x")).2 = some ⟨"a" ++ "__" ++ "x", none, none, "a"⟩ ∧
    (listAllTools plainCollisionWorld
      (mkManager "/c" plainCollisionConfig StrMap.empty)).state.toolToServer.get
        "x" = none ∧
    (getToolDetails plainCollisionWorld
      (listAllTools plainCollisionWorld
        (mkManager "/c" plainCollisionConfig StrMap.empty)).state "x").2 =
      none := by
  have h := collision_rename_and_retrieval plainCollisionWorld "/c"
    plainCollisionConfig "x" (by decide) (by decide) (by decide) (by decide)
    (by decide)
  have ha := h.1 ⟨"x", none, none, "a"⟩ (by decide) (by decide)
  exact ⟨⟨by decide, by decide⟩, ha.1, ha.2.1, ha.2.2, h.2.1.1, h.2.1.2.2⟩

/-- Closed instance of the C7 theorem at a concrete configuration. -/
theorem unknown_names_not_found_witness :
    StrMap.get unknownDemoConfig "zzz" = none ∧
    getMCPDetails unknownDemoWorld (mkManager "/c" unknownDemoConfig StrMap.empty)
      "zzz" = (mkManager "/c" unknownDemoConfig StrMap.empty, none) ∧
    (getToolDetails unknownDemoWorld
      (mkManager "/c" unknownDemoConfig StrMap.empty) "nope").2 = none ∧
    ∃ e, (executeToolHandler unknownDemoWorld
      (mkManager "/c" unknownDemoConfig StrMap.empty) "nope" (0 : Nat)).2 =
      HandlerResult.errorResult ("Error executing tool: " ++ e) := by
  have h := unknown_names_not_found unknownDemoWorld "/c" unknownDemoConfig
    "zzz" "nope" (0 : Nat) (by decide) (by decide) (by decide) (by decide)
    (by decide)
  exact ⟨by decide, h.1, h.2.1, h.2.2⟩

/-! ## Claim C3 -/


theorem decBody_quote (rest : List Char) : decBody ('"' :: rest) = some ([], rest) := by
  unfold decBody; simp

theorem decBody_escQuote (rest : List Char) :
    decBody ('\\' :: '"' :: rest) = (decBody rest).map (fun p => ('"' :: p.1, p.2)) := by
  conv_lhs => unfold decBody
  simp

theorem decBody_escBackslash (rest : List Char) :
    decBody ('\\' :: '\\' :: rest) = (decBody rest).map (fun p => ('\\' :: p.1, p.2)) := by
  conv_lhs => unfold decBody
  simp

theorem decBody_escB (rest : List Char) :
    decBody ('\\' :: 'b' :: rest) = (decBody rest).map (fun p => ('\x08' :: p.1, p.2)) := by
  conv_lhs => unfold decBody
  simp

theorem decBody_escF (rest : List Char) :
    decBody ('\\' :: 'f' :: rest) = (decBody rest).map (fun p => ('\x0c' :: p.1, p.2)) := by
  conv_lhs => unfold decBody
  simp

theorem decBody_escN (rest : List Char) :
    decBody ('\\' :: 'n' :: rest) = (decBody rest).map (fun p => ('\n' :: p.1, p.2)) := by
  conv_lhs => unfold decBody
  simp

theorem decBody_escR (rest : List Char) :
    decBody ('\\' :: 'r' :: rest) = (decBody rest).map (fun p => ('\r' :: p.1, p.2)) := by
  conv_lhs => unfold decBody
  simp

theorem decBody_escT (rest : List Char) :
    decBody ('\\' :: 't' :: rest) = (decBody rest).map (fun p => ('\t' :: p.1, p.2)) := by
  conv_lhs => unfold decBody
  simp

theorem decBody_escU (d1 d2 : Char) (rest : List Char) :
    decBody ('\\' :: 'u' :: '0' :: '0' :: d1 :: d2 :: rest) =
      (decBody rest).map (fun p => (Char.ofNat (hexVal d1 * 16 + hexVal d2) :: p.1, p.2)) := by
  conv_lhs => unfold decBody
  simp

theorem decBody_plain (c : Char) (h1 : c ≠ '"') (h2 : c ≠ '\\') (rest : List Char) :
    decBody (c :: rest) = (decBody rest).map (fun p => (c :: p.1, p.2)) := by
  conv_lhs => unfold decBody
  simp [h1, h2]



theorem hexVal_hexDigitChar : ∀ n < 16, hexVal (hexDigitChar n) = n := by decide

theorem decBody_encStrData (s : List Char) (rest : List Char) :
    decBody (encStrData s ++ '"' :: rest) = some (s, rest) := by
  induction s with
  | nil => simpa [encStrData] using decBody_quote rest
  | cons c cs ih =>
    rw [show encStrData (c :: cs) = escChar c ++ encStrData cs from by
      simp [encStrData], List.append_assoc]
    unfold escChar
    split_ifs with h1 h2 h3 h4 h5 h6 h7 h8
    · subst h1; simp [decBody_escQuote, ih]
    · subst h2; simp [decBody_escBackslash, ih]
    · subst h3; simp [decBody_escB, ih]
    · subst h4; simp [decBody_escF, ih]
    · subst h5; simp [decBody_escN, ih]
    · subst h6; simp [decBody_escR, ih]
    · subst h7; simp [decBody_escT, ih]
    · -- control character: the \u00XX escape round-trips
      have hdiv : c.toNat / 16 < 16 := by omega
      have hmod : c.toNat % 16 < 16 := by omega
      simp only [List.cons_append, List.nil_append, decBody_escU, ih, Option.map_some]
      rw [hexVal_hexDigitChar _ hdiv, hexVal_hexDigitChar _ hmod]
      have heq : c.toNat / 16 * 16 + c.toNat % 16 = c.toNat := by omega
      rw [heq, Char.ofNat_toNat]
      rfl
    · simp [decBody_plain c h1 h2, ih]



theorem char_eq_of_toNat_eq {a b : Char} (h : a.toNat = b.toNat) : a = b := by
  rw [← Char.ofNat_toNat a, ← Char.ofNat_toNat b, h]

theorem cpLeb_total (a b : List Char) : cpLeb a b = true ∨ cpLeb b a = true := by
  induction a generalizing b with
  | nil => left; rfl
  | cons x xs ih =>
    cases b with
    | nil => right; rfl
    | cons y ys =>
      by_cases h1 : x.toNat < y.toNat
      · left; simp [cpLeb, h1]
      · by_cases h2 : y.toNat < x.toNat
        · right; simp [cpLeb, h2]
        · rcases ih ys with h | h
          · left; simp [cpLeb, h1, h2, h]
          · right; simp [cpLeb, h1, h2, h]

theorem cpLeb_trans : ∀ {a b c : List Char},
    cpLeb a b = true → cpLeb b c = true → cpLeb a c = true := by
  intro a
  induction a with
  | nil => intro b c _ _; rfl
  | cons x xs ih =>
    intro b c hab hbc
    cases b with
    | nil => simp [cpLeb] at hab
    | cons y ys =>
      cases c with
      | nil => simp [cpLeb] at hbc
      | cons z zs =>
        by_cases hxy : x.toNat < y.toNat
        · by_cases hyz : y.toNat < z.toNat
          · have hxz : x.toNat < z.toNat := Nat.lt_trans hxy hyz
            simp [cpLeb, hxz]
          · have hzy : ¬ z.toNat < y.toNat := by
              by_contra hzy
              simp [cpLeb, hyz, hzy] at hbc
            have hxz : x.toNat < z.toNat := by omega
            simp [cpLeb, hxz]
        · have hyx : ¬ y.toNat < x.toNat := by
            by_contra hyx
            simp [cpLeb, hxy, hyx] at hab
          have hab2 : cpLeb xs ys = true := by
            simpa [cpLeb, hxy, hyx] using hab
          by_cases hyz : y.toNat < z.toNat
          · have hxz : x.toNat < z.toNat := by omega
            simp [cpLeb, hxz]
          · have hzy : ¬ z.toNat < y.toNat := by
              by_contra hzy
              simp [cpLeb, hyz, hzy] at hbc
            have hbc2 : cpLeb ys zs = true := by
              simpa [cpLeb, hyz, hzy] using hbc
            have hxz : ¬ x.toNat < z.toNat := by omega
            have hzx : ¬ z.toNat < x.toNat := by omega
            simpa [cpLeb, hxz, hzx] using ih hab2 hbc2

theorem cpLeb_antisymm : ∀ {a b : List Char},
    cpLeb a b = true → cpLeb b a = true → a = b := by
  intro a
  induction a with
  | nil =>
    intro b _ hba
    cases b with
    | nil => rfl
    | cons y ys => simp [cpLeb] at hba
  | cons x xs ih =>
    intro b hab hba
    cases b with
    | nil => simp [cpLeb] at hab
    | cons y ys =>
      by_cases hxy : x.toNat < y.toNat
      · simp [cpLeb, hxy, Nat.lt_asymm hxy] at hba
      · by_cases hyx : y.toNat < x.toNat
        · simp [cpLeb, hxy, hyx] at hab
        · have hx : x = y := char_eq_of_toNat_eq (by omega)
          have hab2 : cpLeb xs ys = true := by simpa [cpLeb, hxy, hyx] using hab
          have hba2 : cpLeb ys xs = true := by simpa [cpLeb, hxy, hyx] using hba
          rw [hx, ih hab2 hba2]



theorem sortEnv_eq_of_perm {e1 e2 : List (String × String)}
    (hp : e1.Perm e2) (hnd : (e1.map Prod.fst).Nodup) :
    sortEnv e1 = sortEnv e2 := by
  haveI : IsTotal (String × String) envEntryLe :=
    ⟨fun x y => cpLeb_total x.1.data y.1.data⟩
  haveI : IsTrans (String × String) envEntryLe :=
    ⟨fun _ _ _ hxy hyz => cpLeb_trans hxy hyz⟩
  haveI : IsAntisymm (String × String) envEntryLtKeys :=
    ⟨fun x y hxy hyx => absurd (String.ext (cpLeb_antisymm hxy.1 hyx.1)) hxy.2⟩
  have hperm : (sortEnv e1).Perm (sortEnv e2) :=
    (List.perm_insertionSort _ e1).trans (hp.trans (List.perm_insertionSort _ e2).symm)
  have hnd1 : ((sortEnv e1).map Prod.fst).Nodup :=
    (((List.perm_insertionSort envEntryLe e1).map Prod.fst).symm).nodup hnd
  have hnd2 : ((sortEnv e2).map Prod.fst).Nodup := (hperm.map Prod.fst).nodup hnd1
  have hs1 : (sortEnv e1).Pairwise envEntryLe := List.sorted_insertionSort _ _
  have hs2 : (sortEnv e2).Pairwise envEntryLe := List.sorted_insertionSort _ _
  have hne1 : (sortEnv e1).Pairwise (fun a b => a.1 ≠ b.1) := by
    rw [List.Nodup, List.pairwise_map] at hnd1
    exact hnd1
  have hne2 : (sortEnv e2).Pairwise (fun a b => a.1 ≠ b.1) := by
    rw [List.Nodup, List.pairwise_map] at hnd2
    exact hnd2
  have hlt1 : (sortEnv e1).Sorted envEntryLtKeys := hs1.and hne1
  have hlt2 : (sortEnv e2).Sorted envEntryLtKeys := hs2.and hne2
  exact List.eq_of_perm_of_sorted hperm hlt1 hlt2



theorem encStr_append_eq (s : String) (r : List Char) :
    encStr s ++ r = '"' :: (encStrData s.data ++ '"' :: r) := by
  simp [encStr]

theorem encStr_unambiguous {a b : String} {r1 r2 : List Char}
    (h : encStr a ++ r1 = encStr b ++ r2) : a = b ∧ r1 = r2 := by
  rw [encStr_append_eq, encStr_append_eq] at h
  have h2 : encStrData a.data ++ '"' :: r1 = encStrData b.data ++ '"' :: r2 :=
    (List.cons.injEq _ _ _ _ ▸ h).2
  have hs : (some (a.data, r1) : Option (List Char × List Char)) = some (b.data, r2) := by
    rw [← decBody_encStrData a.data r1, h2, decBody_encStrData b.data r2]
  simp only [Option.some.injEq, Prod.mk.injEq] at hs
  exact ⟨String.ext hs.1, hs.2⟩

theorem encStr_head (s : String) : ∃ t, encStr s = '"' :: t := ⟨_, rfl⟩

theorem encItems_unambiguous :
    ∀ (xs ys : List String) (r1 r2 : List Char),
      encItems xs ++ ']' :: r1 = encItems ys ++ ']' :: r2 → xs = ys ∧ r1 = r2 := by
  intro xs
  induction xs with
  | nil =>
    intro ys r1 r2 h
    cases ys with
    | nil =>
      simp only [encItems, List.nil_append, List.cons.injEq] at h
      exact ⟨rfl, h.2⟩
    | cons y ys =>
      exfalso
      cases ys with
      | nil => simp [encItems, encStr] at h
      | cons z zs => simp [encItems, encStr] at h
  | cons x xs ih =>
    intro ys r1 r2 h
    cases ys with
    | nil =>
      exfalso
      cases xs with
      | nil => simp [encItems, encStr] at h
      | cons z zs => simp [encItems, encStr] at h
    | cons y ys =>
      cases xs with
      | nil =>
        cases ys with
        | nil =>
          simp only [encItems] at h
          rcases encStr_unambiguous h with ⟨hxy, hr⟩
          simp only [List.cons.injEq] at hr
          exact ⟨by rw [hxy], hr.2⟩
        | cons w ws =>
          exfalso
          simp only [encItems, List.append_assoc, List.cons_append] at h
          rcases encStr_unambiguous h with ⟨_, hr⟩
          simp at hr
      | cons z zs =>
        cases ys with
        | nil =>
          exfalso
          simp only [encItems, List.append_assoc, List.cons_append] at h
          rcases encStr_unambiguous h with ⟨_, hr⟩
          simp at hr
        | cons w ws =>
          simp only [encItems, List.append_assoc, List.cons_append] at h
          rcases encStr_unambiguous h with ⟨hxy, hr⟩
          simp only [List.cons.injEq] at hr
          rcases ih (w :: ws) r1 r2 hr.2 with ⟨hz, hrr⟩
          exact ⟨by rw [hxy, hz], hrr⟩



theorem encPairItems_unambiguous :
    ∀ (es fs : List (String × String)) (r1 r2 : List Char),
      encPairItems es ++ '\x7d' :: r1 = encPairItems fs ++ '\x7d' :: r2 →
      es = fs ∧ r1 = r2 := by
  intro es
  induction es with
  | nil =>
    intro fs r1 r2 h
    cases fs with
    | nil =>
      simp only [encPairItems, List.nil_append, List.cons.injEq] at h
      exact ⟨rfl, h.2⟩
    | cons f fs =>
      exfalso
      rcases f with ⟨k, v⟩
      cases fs with
      | nil => simp [encPairItems, encStr] at h
      | cons g gs => simp [encPairItems, encStr] at h
  | cons e es ih =>
    intro fs r1 r2 h
    rcases e with ⟨k, v⟩
    cases fs with
    | nil =>
      exfalso
      cases es with
      | nil => simp [encPairItems, encStr] at h
      | cons g gs => simp [encPairItems, encStr] at h
    | cons f fs =>
      rcases f with ⟨k2, v2⟩
      cases es with
      | nil =>
        cases fs with
        | nil =>
          simp only [encPairItems, List.append_assoc, List.cons_append] at h
          rcases encStr_unambiguous h with ⟨hk, hr⟩
          simp only [List.cons.injEq] at hr
          rcases encStr_unambiguous hr.2 with ⟨hv, hrr⟩
          simp only [List.cons.injEq] at hrr
          exact ⟨by rw [hk, hv], hrr.2⟩
        | cons g gs =>
          exfalso
          simp only [encPairItems, List.append_assoc, List.cons_append] at h
          rcases encStr_unambiguous h with ⟨_, hr⟩
          simp only [List.cons.injEq] at hr
          rcases encStr_unambiguous hr.2 with ⟨_, hrr⟩
          simp at hrr
      | cons g gs =>
        cases fs with
        | nil =>
          exfalso
          simp only [encPairItems, List.append_assoc, List.cons_append] at h
          rcases encStr_unambiguous h with ⟨_, hr⟩
          simp only [List.cons.injEq] at hr
          rcases encStr_unambiguous hr.2 with ⟨_, hrr⟩
          simp at hrr
        | cons g2 gs2 =>
          simp only [encPairItems, List.append_assoc, List.cons_append] at h
          rcases encStr_unambiguous h with ⟨hk, hr⟩
          simp only [List.cons.injEq] at hr
          rcases encStr_unambiguous hr.2 with ⟨hv, hrr⟩
          simp only [List.cons.injEq] at hrr
          rcases ih (g2 :: gs2) r1 r2 hrr.2 with ⟨hgs, hrrr⟩
          exact ⟨by rw [hk, hv, hgs], hrrr⟩

theorem encStrList_unambiguous {xs ys : List String} {r1 r2 : List Char}
    (h : encStrList xs ++ r1 = encStrList ys ++ r2) : xs = ys ∧ r1 = r2 := by
  simp only [encStrList, List.cons_append, List.append_assoc, List.cons.injEq] at h
  exact encItems_unambiguous xs ys r1 r2 h.2

theorem encEnvObj_unambiguous {es fs : List (String × String)} {r1 r2 : List Char}
    (h : encEnvObj es ++ r1 = encEnvObj fs ++ r2) : es = fs ∧ r1 = r2 := by
  simp only [encEnvObj, List.cons_append, List.append_assoc, List.cons.injEq] at h
  exact encPairItems_unambiguous es fs r1 r2 h.2



/-- C3 (amended): for backend specs whose environment overlays have
pairwise-distinct keys (the JS `Record` invariant), the signature — a pure
function, hence deterministic — is equal exactly when the command, the
effective argument list (`args ?? []`), and the environment agree, the
environment up to key reordering but with an absent overlay distinguished
from a present empty one.  In particular it is invariant under
environment-key reordering and sensitive to command, argument order, and
environment content. -/
theorem signature_characterization (c1 c2 : MCPServerConfig)
    (h1 : ((c1.env.getD []).map Prod.fst).Nodup)
    (h2 : ((c2.env.getD []).map Prod.fst).Nodup) :
    getServerConfigSignature (some c1) = getServerConfigSignature (some c2) ↔
      (c1.command = c2.command ∧ c1.args.getD [] = c2.args.getD []
        ∧ envContentEq c1.env c2.env) := by
  rcases c1 with ⟨cm1, ar1, en1, de1⟩
  rcases c2 with ⟨cm2, ar2, en2, de2⟩
  constructor
  · intro h
    rw [String.ext_iff] at h
    simp only [getServerConfigSignature, List.cons.injEq, List.append_assoc] at h
    have h3 := List.append_cancel_left h.2
    rcases encStr_unambiguous h3 with ⟨hcmd, h4⟩
    have h5 := List.append_cancel_left h4
    rcases encStrList_unambiguous h5 with ⟨hargs, h6⟩
    refine ⟨hcmd, hargs, ?_⟩
    cases en1 with
    | none =>
      cases en2 with
      | none => trivial
      | some e2 =>
        exfalso
        simp at h6
    | some e1 =>
      cases en2 with
      | none =>
        exfalso
        simp at h6
      | some e2 =>
        simp only [List.append_assoc] at h6
        have h7 := List.append_cancel_left h6
        rcases encEnvObj_unambiguous h7 with ⟨hobj, _⟩
        show e1.Perm e2
        have hp2 : (sortEnv e1).Perm e2 := by
          rw [hobj]; exact List.perm_insertionSort _ _
        exact (List.perm_insertionSort envEntryLe e1).symm.trans hp2
  · rintro ⟨hc, ha, he⟩
    subst hc
    cases en1 with
    | none =>
      cases en2 with
      | none =>
        exact String.ext (by simp [getServerConfigSignature, ha])
      | some e2 => exact he.elim
    | some e1 =>
      cases en2 with
      | none => exact he.elim
      | some e2 =>
        have hsort : sortEnv e1 = sortEnv e2 := sortEnv_eq_of_perm he h1
        exact String.ext (by simp [getServerConfigSignature, ha, hsort])

/-- C3 counterexample: a spec with no environment overlay and a spec with
an empty one have identical command, identical effective argument list and
identical (empty) environment content, yet different signatures —
`JSON.stringify` omits an `undefined` env but keeps `"env":{}`. -/
theorem signature_env_absent_vs_empty_counterexample :
    (getServerConfigSignature (some ⟨"c", none, none, none⟩) ≠
      getServerConfigSignature (some ⟨"c", none, some [], none⟩))
  ∧ ((⟨"c", none, none, none⟩ : MCPServerConfig).command =
      (⟨"c", none, some [], none⟩ : MCPServerConfig).command)
  ∧ ((⟨"c", none, none, none⟩ : MCPServerConfig).args.getD [] =
      (⟨"c", none, some [], none⟩ : MCPServerConfig).args.getD [])
  ∧ ((⟨"c", none, none, none⟩ : MCPServerConfig).env.getD [] =
      (⟨"c", none, some [], none⟩ : MCPServerConfig).env.getD []) :=
  ⟨by decide, rfl, rfl, rfl⟩

theorem signature_characterization_witness :
    getServerConfigSignature (some ⟨"run", some ["-v"], some [("B", "2"), ("A", "1")], none⟩) =
      getServerConfigSignature (some ⟨"run", some ["-v"], some [("A", "1"), ("B", "2")], none⟩) :=
  (signature_characterization
      ⟨"run", some ["-v"], some [("B", "2"), ("A", "1")], none⟩
      ⟨"run", some ["-v"], some [("A", "1"), ("B", "2")], none⟩
      (by decide) (by decide)).mpr
    ⟨rfl, rfl, List.Perm.swap ("A", "1") ("B", "2") []⟩

/-! ## Claim C9 -/

/-- C9: `searchTools` called with no query and no backend name is exactly
`listAllTools` in that state — the same entries, the same resulting state
(caching and aggregation side effects), and the same backend
interactions. -/
theorem searchTools_no_args_is_listAllTools (w : World) (s : ManagerState) :
    searchTools w s none none = listAllTools w s := rfl

/-! ## Claim C10 -/

theorem disconnectClient_clients_cases (w : World) (s : ManagerState) (n : String) :
    (disconnectClient w s n).clients = s.clients ∨
    (disconnectClient w s n).clients = s.clients.del n := by
  unfold disconnectClient
  cases h : s.clients.get n with
  | none => exact Or.inl rfl
  | some v => exact Or.inr rfl

theorem foldl_disconnect_empty (w : World) :
    ∀ (ks : List String) (st : ManagerState),
      (∀ e ∈ st.clients, e.1 ∈ ks) →
      (ks.foldl (fun acc n => disconnectClient w acc n) st).clients = [] := by
  intro ks
  induction ks with
  | nil =>
    intro st h
    exact List.eq_nil_iff_forall_not_mem.mpr (fun e he => by simpa using h e he)
  | cons k ks ih =>
    intro st h
    rw [List.foldl_cons]
    apply ih
    intro e he
    rcases disconnectClient_clients_cases w st k with hc | hc
    · rw [hc] at he
      have h1 := h e he
      -- the pool had no entry for k in this branch, or e survived anyway;
      -- in either case e is still a pool entry of st
      rcases List.mem_cons.mp h1 with heq | hin
      · -- e.1 = k : show the entry keyed k is gone after disconnecting k;
        -- here the clients map was unchanged, meaning get k = none
        by_cases hget : st.clients.get k = none
        · exact absurd heq ((StrMap.get_eq_none_iff _ _).mp hget e he)
        · -- get k = some: the map would have shrunk; contradiction unless
          -- del leaves it equal, in which case the entry is still absent
          exfalso
          rcases hv : st.clients.get k with _ | v
          · exact hget hv
          · have : (disconnectClient w st k).clients = st.clients.del k := by
              unfold disconnectClient; rw [hv]
            rw [this] at hc
            have hkeys := congrArg (fun m => StrMap.get m k) hc
            simp only [StrMap.get_del_self] at hkeys
            rw [hv] at hkeys
            exact Option.noConfusion hkeys
      · exact hin
    · rw [hc] at he
      rcases StrMap.mem_del.mp he with ⟨hm, hne⟩
      rcases List.mem_cons.mp (h e hm) with heq | hin
      · exact absurd heq hne
      · exact hin

/-- C10: after `disconnectClient(name)` the connection pool holds no
session for that name, whatever the close outcome (`World.closeOk` is
arbitrary — a throwing close is swallowed); consequently `disconnect`
(release-all) always leaves the pool empty, no matter how many closes
fail. -/
theorem disconnect_swallows_close_failures :
    (∀ (w : World) (s : ManagerState) (n : String),
        ((disconnectClient w s n).clients).get n = none) ∧
    (∀ (w : World) (s : ManagerState), (disconnect w s).clients = []) := by
  constructor
  · intro w s n
    unfold disconnectClient
    cases h : s.clients.get n with
    | none => exact h
    | some v => exact StrMap.get_del_self _ _
  · intro w s
    apply foldl_disconnect_empty
    intro e he
    exact List.mem_map_of_mem (·.1) he

/-! ## Claim C8 -/

/-- C8 counterexample: the sanitizer identifies the distinct backend names
`a.b` and `a_b`, so their cache file paths coincide — one backend's
store/invalidate does touch the other's record. -/
theorem cacheFilePath_collision_counterexample :
    getCacheFilePath "/cache" "a.b" = getCacheFilePath "/cache" "a_b" ∧
    ("a.b" : String) ≠ "a_b" := by
  constructor
  · decide
  · decide

/-- C8 (amended): two configured backend names get distinct cache file
paths whenever their sanitized names differ; sanitization itself is not
injective, so names that differ only in characters outside `[a-zA-Z0-9-_]`
can share one cache file. -/
theorem cacheFilePaths_distinct (cacheDir a b : String)
    (h : sanitizeServerName a ≠ sanitizeServerName b) :
    getCacheFilePath cacheDir a ≠ getCacheFilePath cacheDir b := by
  intro he
  apply h
  have hd := congrArg String.data he
  simp only [getCacheFilePath, String.data_append, List.append_assoc] at hd
  have h1 := List.append_cancel_left hd
  have h2 := List.append_cancel_left h1
  exact String.ext (List.append_cancel_right h2)

theorem cacheFilePaths_distinct_witness :
    sanitizeServerName "aa" ≠ sanitizeServerName "bb" ∧
    getCacheFilePath "/cache" "aa" ≠ getCacheFilePath "/cache" "bb" :=
  ⟨by decide, cacheFilePaths_distinct "/cache" "aa" "bb" (by decide)⟩

/-! ## Claim C2 -/

theorem jsStartsWith_append (p s : String) : jsStartsWith (p ++ s) p = true := by
  rw [jsStartsWith, List.isPrefixOf_iff_prefix, String.data_append]
  exact List.prefix_append _ _

theorem jsSlice_strip (A X : String) :
    jsSlice (A ++ "__" ++ X) (A.length + 2) = X := by
  have hlen : (A ++ "__").data.length = A.length + 2 := by
    rw [String.data_append, List.length_append]
    rfl
  apply String.ext
  show ((A ++ "__") ++ X).data.drop (A.length + 2) = X.data
  rw [String.data_append, ← hlen, List.drop_left]

theorem finishExecute_prefixed {α : Type} (w : World) (s : ManagerState)
    (A X orig : String) (cfg : MCPServerConfig) (args : α)
    (hcfg : s.config.get A = some cfg) :
    finishExecute w s (A ++ "__" ++ X) orig A args =
      (connectToServer w s A cfg, .ok ⟨A, X, args⟩) := by
  unfold finishExecute
  rw [jsStartsWith_append (A ++ "__") X]
  simp [jsSlice_strip, hcfg]

theorem finishExecute_plain {α : Type} (w : World) (s : ManagerState)
    (Y B : String) (cfg : MCPServerConfig) (args : α)
    (hcfg : s.config.get B = some cfg)
    (hpre : jsStartsWith Y (B ++ "__") = false) :
    finishExecute w s Y Y B args = (connectToServer w s B cfg, .ok ⟨B, Y, args⟩) := by
  unfold finishExecute
  simp [hpre, hcfg]

/-- C2 (amended): in any state whose name index maps `A__X` to the
configured backend `A` with `A` non-empty (a JS-truthy index hit),
`executeTool("A__X", args)` invokes backend `A`'s tool under the native
name `X` with `args` passed through unchanged; and for a public name `Y`
indexed to its sole configured non-empty owner `B`, `executeTool("Y",
args)` invokes `B`'s tool `Y` with `args` unchanged *provided `Y` does
not itself begin with `B__`* — a uniquely-owned native name of the shape
`B__t` has that prefix stripped before invocation. -/
theorem executeTool_routes_via_index {α : Type} (w : World) (s : ManagerState)
    (args : α) :
    (∀ (A X : String) (cfg : MCPServerConfig), A ≠ "" →
        s.toolToServer.get (A ++ "__" ++ X) = some A →
        s.config.get A = some cfg →
        (executeTool w s (A ++ "__" ++ X) args none).2 = .ok ⟨A, X, args⟩)
  ∧ (∀ (Y B : String) (cfg : MCPServerConfig), B ≠ "" →
        s.toolToServer.get Y = some B →
        s.config.get B = some cfg →
        jsStartsWith Y (B ++ "__") = false →
        (executeTool w s Y args none).2 = .ok ⟨B, Y, args⟩) := by
  constructor
  · intro A X cfg hA hidx hcfg
    simp only [executeTool, strFalsy_none, Bool.not_true, Bool.false_eq_true,
      if_false, hidx, strFalsy_some_ne hA, Bool.not_false, if_true,
      Option.getD_some]
    rw [finishExecute_prefixed w s A X _ cfg args hcfg]
  · intro Y B cfg hB hidx hcfg hpre
    simp only [executeTool, strFalsy_none, Bool.not_true, Bool.false_eq_true,
      if_false, hidx, strFalsy_some_ne hB, Bool.not_false, if_true,
      Option.getD_some]
    rw [finishExecute_plain w s Y B cfg args hcfg hpre]

/-- C2 counterexample: after aggregation the unique (collision-free) name
`b__t` is indexed as-is to its sole owner `b`, yet `executeTool("b__t")`
invokes the native tool `t`, not `b__t` — the prefix-looking name is
stripped even though it was never renamed. -/
theorem executeTool_unique_name_counterexample :
    (looksPrefixedState.toolToServer.get "b__t" = some "b")
  ∧ ((executeTool looksPrefixedWorld looksPrefixedState "b__t" (0 : Nat) none).2
      = .ok ⟨"b", "t", 0⟩)
  ∧ (("t" : String) ≠ "b__t") := by
  refine ⟨by decide, by decide, by decide⟩

theorem executeTool_routes_via_index_witness :
    ((executeTool routeDemoWorld routeDemoState ("a" ++ "__" ++ "x") (3 : Nat) none).2
        = .ok ⟨"a", "x", 3⟩)
  ∧ ((executeTool routeDemoWorld routeDemoState "y" (3 : Nat) none).2
        = .ok ⟨"a", "y", 3⟩) :=
  ⟨(executeTool_routes_via_index routeDemoWorld routeDemoState 3).1 "a" "x"
      ⟨"cmd", none, none, none⟩ (by decide) (by decide) (by decide),
   (executeTool_routes_via_index routeDemoWorld routeDemoState 3).2 "y" "a"
      ⟨"cmd", none, none, none⟩ (by decide) (by decide) (by decide) (by decide)⟩

end Mcpcute
